import Mathlib

/-!
Rate-limit aware retrying transport (`porcelain/http/http.go`)

A shallow embedding of the Go package `http` of the repository:

* `delayWithRateLimit` : the cooldown computed from the `X-RateLimit-Reset`
  header and the wait against the cancellation channel;
* `retryableRoundTripper.RoundTrip` : the retry loop;
* `RetryableTransport.Submit` : the wrapper installing the retrying round
  tripper into the client of an operation.

Go values that may be `nil` (pointers, interfaces, errors, channels) are
`Option`s.  Go `int` is a 64 bit integer in twos complement: arithmetic on it is
arithmetic on `Int` followed by `wrapInt`.  The collaborators the package calls
(request preparation, the underlying transport, the clock, the choice of the
scheduler in a `select`) are given by the scripts of an `Env`; the `World` counts
how often each one has been consulted and records the events in order.
-/

namespace RetryHttp

/-! ## Machine integers -/

/-- Number of bits of a Go `int` (and of `strconv.IntSize`) on a 64 bit platform. -/
def intSize : Nat := 64

/-- Largest Go `int`. -/
def maxInt : Int := 2 ^ (intSize - 1) - 1

/-- Smallest Go `int`. -/
def minInt : Int := -(2 ^ (intSize - 1))

/-- Twos complement wrap-around of an integer into the range of a Go `int`. -/
def wrapInt (x : Int) : Int :=
  (x + 2 ^ (intSize - 1)) % 2 ^ intSize - 2 ^ (intSize - 1)

/-! ## Responses, headers, errors -/

/-- A Go `error` value that is not `nil`; `nil` is `none : Option Error`. -/
abbrev Error := String

/-- The constant `http.StatusTooManyRequests`. -/
def StatusTooManyRequests : Int := 429

/-- Canonical form of a header key, as `textproto.CanonicalMIMEHeaderKey` computes it for a
key made of letters, digits and `-`: the first letter and every letter after a `-` in upper
case, the others in lower case. -/
def canonicalChars : Bool → List Char → List Char
  | _, [] => []
  | upper, c :: cs =>
    (if upper then c.toUpper else c.toLower) :: canonicalChars (c == '-') cs

/-- Canonical header key of a string. -/
def CanonicalMIMEHeaderKey (s : String) : String :=
  String.mk (canonicalChars true s.data)

/-- An `http.Header`: the map from canonical keys to the values sent under that key, as an
association list (the first entry of a key is the one the map holds). -/
abbrev Header := List (String × List String)

/-- The method `Header.Get` of Go: the first value stored under the canonical form of `key`,
or `""` when there is none. -/
def Header.Get (h : Header) (key : String) : String :=
  match h.lookup (CanonicalMIMEHeaderKey key) with
  | some (v :: _) => v
  | _ => ""

/-- The fields of an `http.Response` the package reads. -/
structure Response where
  StatusCode : Int
  Header : Header
  deriving DecidableEq, Repr

/-! ## `strconv.ParseInt(r, 10, 0)` -/

/-- Value of a string of decimal digits; `none` when the string is empty or holds another
character (the syntax error of `strconv.ParseUint` in base 10). -/
def parseDigits : List Char → Nat → Option Nat
  | [], acc => some acc
  | c :: cs, acc =>
    if c.isDigit then parseDigits cs (acc * 10 + (c.toNat - 48)) else none

/-- Unsigned part of `ParseInt`: at least one digit, only digits. -/
def parseUnsigned (cs : List Char) : Option Nat :=
  match cs with
  | [] => none
  | _ => parseDigits cs 0

/-- The call `strconv.ParseInt(s, 10, 0)`: an optional sign followed by decimal digits, whose
value fits a Go `int`; `none` stands for a non-nil error (syntax or range). -/
def ParseInt (s : String) : Option Int :=
  match s.data with
  | [] => none
  | '+' :: cs =>
    match parseUnsigned cs with
    | some n => if (n : Int) ≤ maxInt then some n else none
    | none => none
  | '-' :: cs =>
    match parseUnsigned cs with
    | some n => if minInt ≤ -(n : Int) then some (-(n : Int)) else none
    | none => none
  | cs =>
    match parseUnsigned cs with
    | some n => if (n : Int) ≤ maxInt then some n else none
    | none => none

/-! ## Time -/

/-- Nanoseconds in a second (`time.Second`). -/
def Second : Int := 1000000000

/-- Largest `time.Duration` (nanoseconds in an `int64`). -/
def maxDuration : Int := 2 ^ 63 - 1

/-- Smallest `time.Duration`. -/
def minDuration : Int := -(2 ^ 63)

/-- The constant `unixToInternal` of package `time`: the seconds from year 1 to the epoch. -/
def unixToInternal : Int := 62135596800

/-- Wrap-around of an integer into the range of an `int64`. -/
def wrapInt64 (x : Int) : Int :=
  (x + 2 ^ 63) % 2 ^ 64 - 2 ^ 63

/-- The instant `time.Unix(sec, 0)`, in nanoseconds since the epoch.  Go keeps the seconds
since year 1, `sec + unixToInternal`, in an `int64` and does not check the sum for overflow:
for `sec` above `2 ^ 63 - 1 - unixToInternal` the instant kept is one far in the past. -/
def Unix (sec : Int) : Int :=
  (wrapInt64 (sec + unixToInternal) - unixToInternal) * Second

/-- The method `Time.Sub` on the instants as kept: the duration `t - u`, saturated to the
range of a duration. -/
def Sub (t u : Int) : Int :=
  if t - u > maxDuration then maxDuration
  else if t - u < minDuration then minDuration
  else t - u

/-- The `select` of `delayWithRateLimit` over the timer `time.After(d)` started at instant
`now` and the cancellation channel.  A channel is given by the instant at which it becomes
ready (`none`: a nil channel, or one that never fires).  The timer is ready at
`now + max d 0`, the channel at its instant or at `now` when it has fired before; the case
that is ready first is taken, and when both are ready at once the choice `tie` of the scheduler
decides (`true` for the timer). The result is `true` when the timer case is taken. -/
def selectTimer (now d : Int) (cancel : Option Int) (tie : Bool) : Bool :=
  match cancel with
  | none => true
  | some c =>
    if now + max d 0 < max c now then true
    else if max c now < now + max d 0 then false
    else tie

/-! ## The world around one call -/

/-- The fields of an `http.Request` the package reads: the cancellation channel `Cancel`. -/
structure Request where
  Cancel : Option Int
  deriving DecidableEq, Repr

/-- What happened, in order. -/
inductive Event where
  /-- A call of `rr.Prepare()` and the error it returned. -/
  | prepare (err : Option Error)
  /-- A call of the underlying transport and what it returned. -/
  | send (resp : Option Response) (err : Option Error)
  /-- A wait in the `select` of `delayWithRateLimit`: the duration given to the timer and
  whether the timer case was taken. -/
  | wait (d : Int) (waited : Bool)
  deriving DecidableEq, Repr

/-- The behaviour of the collaborators, by number of the call. -/
structure Env where
  /-- Error returned by the `k`-th call of `rr.Prepare()`. -/
  prepare : Nat → Option Error
  /-- Response and error returned by the `k`-th call of the underlying transport. -/
  transport : Nat → Option Response × Option Error
  /-- Reading of `time.Now()` (nanoseconds since the epoch) in the `k`-th wait. -/
  now : Nat → Int
  /-- Choice of the scheduler in the `k`-th wait when timer and channel are ready at once. -/
  tie : Nat → Bool

/-- How often each collaborator has been called, and the events so far. -/
structure World where
  prepares : Nat
  sends : Nat
  waits : Nat
  trace : List Event
  deriving DecidableEq, Repr

/-- The world before anything happened. -/
def World.init : World := ⟨0, 0, 0, []⟩

/-- What a call produces: the returned pair, or a run-time panic (nil dereference). -/
inductive Outcome where
  | ret (resp : Option Response) (err : Option Error)
  | panic
  deriving DecidableEq, Repr

/-- The behaviour of an `http.RoundTripper`: `RoundTrip(req)`, run in a world. -/
abbrev RoundTripFn := Request → World → Outcome × World

/-- The call `rr.Prepare()`: its error, and the world after it. -/
def Prepare (env : Env) (w : World) : Option Error × World :=
  (env.prepare w.prepares,
    { w with prepares := w.prepares + 1, trace := w.trace ++ [Event.prepare (env.prepare w.prepares)] })

/-- The underlying transport (the delegate at the bottom, which does not retry). -/
def baseRoundTrip (env : Env) : RoundTripFn := fun _ w =>
  (Outcome.ret (env.transport w.sends).1 (env.transport w.sends).2,
    { w with sends := w.sends + 1,
             trace := w.trace ++ [Event.send (env.transport w.sends).1 (env.transport w.sends).2] })

/-! ## `delayWithRateLimit` -/

/-- The function `delayWithRateLimit(resp, cancel)`.  `none` is the panic of reading the
header of a nil response; `some b` is the returned boolean.  The wait is counted and recorded
only when the `select` is reached. -/
def delayWithRateLimit (env : Env) (resp : Option Response) (cancel : Option Int) (w : World) :
    Option Bool × World :=
  match resp with
  | none => (none, w)
  | some resp =>
    let r := resp.Header.Get "X-RateLimit-Reset"
    if r = "" then (some false, w)
    else
      match ParseInt r with
      | none => (some false, w)
      | some retryReset =>
        let t := Unix retryReset
        let d := Sub t (env.now w.waits)
        let waited := selectTimer (env.now w.waits) d cancel (env.tie w.waits)
        (some waited,
          { w with waits := w.waits + 1, trace := w.trace ++ [Event.wait d waited] })

/-! ## `retryableRoundTripper.RoundTrip` -/

/-- The loop `for attempt := 0; attempt < attempts; attempt++`, by the number of iterations
that remain.  `resp` and `err` are the named results of `RoundTrip`. -/
def retryLoop (env : Env) (tr : RoundTripFn) (req : Request) :
    Nat → Option Response → Option Error → World → Outcome × World
  | 0, resp, err, w => (Outcome.ret resp err, w)
  | n + 1, resp, _, w =>
    match Prepare env w with
    | (some e, w1) => (Outcome.ret resp (some e), w1)
    | (none, w1) =>
      match tr req w1 with
      | (Outcome.panic, w2) => (Outcome.panic, w2)
      | (Outcome.ret resp2 (some e), w2) => (Outcome.ret resp2 (some e), w2)
      | (Outcome.ret none none, w2) => (Outcome.panic, w2)
      | (Outcome.ret (some r) none, w2) =>
        if r.StatusCode ≠ StatusTooManyRequests then (Outcome.ret (some r) none, w2)
        else
          match delayWithRateLimit env (some r) req.Cancel w2 with
          | (none, w3) => (Outcome.panic, w3)
          | (some false, w3) => (Outcome.ret (some r) none, w3)
          | (some true, w3) => retryLoop env tr req n (some r) none w3

/-- The method `(*retryableRoundTripper).RoundTrip` for a receiver with delegate `tr` and
budget `attempts`: the budget is incremented (with wrap-around) and the loop runs that many
times, starting from nil results. -/
def retryableRoundTripper.RoundTrip (env : Env) (tr : RoundTripFn) (attempts : Int) :
    RoundTripFn := fun req w =>
  retryLoop env tr req (wrapInt (attempts + 1)).toNat none none w

/-- The values of the interface `http.RoundTripper` the package meets: the default transport,
another transport of the caller, or a `*retryableRoundTripper` with its two fields. -/
inductive RoundTripper where
  | DefaultTransport
  | other (id : Nat)
  | retryable (tr : RoundTripper) (attempts : Int)
  deriving DecidableEq, Repr

/-- Dynamic dispatch of `RoundTrip` on a round tripper value. -/
def RoundTripper.RoundTrip (env : Env) : RoundTripper → RoundTripFn
  | RoundTripper.DefaultTransport => baseRoundTrip env
  | RoundTripper.other _ => baseRoundTrip env
  | RoundTripper.retryable tr attempts =>
    retryableRoundTripper.RoundTrip env (RoundTripper.RoundTrip env tr) attempts

/-! ## Shape of a run over the underlying transport -/

/-- What `delayWithRateLimit` does with a non-nil response in the wait number `j`: `none` when
the reset header is missing or does not parse (it returns `false` without waiting), `some b`
when the `select` runs and the timer case is taken (`b = true`) or the cancellation case. -/
def cooldown (env : Env) (cancel : Option Int) (r : Response) (j : Nat) : Option Bool :=
  match ParseInt (r.Header.Get "X-RateLimit-Reset") with
  | none => none
  | some retryReset =>
    some (selectTimer (env.now j) (Sub (Unix retryReset) (env.now j)) cancel (env.tie j))

/-- An attempt that uses preparation `p`, delegate call `s` and wait `q` is prepared, answered
with status 429 and no error, and its cooldown is waited for to the end. -/
def GoesOn (env : Env) (req : Request) (p s q : Nat) : Prop :=
  env.prepare p = none ∧
  ∃ r, env.transport s = (some r, none) ∧ r.StatusCode = StatusTooManyRequests ∧
    cooldown env req.Cancel r q = some true

/-- The counters of a world. -/
def World.counts (w : World) (p s q : Nat) : Prop :=
  w.prepares = p ∧ w.sends = s ∧ w.waits = q

/-- The named result `resp` after `m` completed attempts of a call started in world `w`. -/
def lastResp (env : Env) (s : Nat) (resp : Option Response) (m : Nat) : Option Response :=
  if m = 0 then resp else (env.transport (s + (m - 1))).1

/-- The named result `err` after `m` completed attempts. -/
def lastErr (err : Option Error) (m : Nat) : Option Error :=
  if m = 0 then err else none

/-- How the loop over the underlying transport ends, after `m` attempts that went on, when it
started with `n` iterations to go and counters `p`, `s`, `q`: by using up the iterations, by a
failed preparation, or in attempt `m` by a transport error, a nil response without error, a
status other than 429, a reset header of no use, or a cancelled wait. -/
def Ending (env : Env) (req : Request) (n : Nat) (resp : Option Response) (err : Option Error)
    (p s q m : Nat) (out : Outcome) (w' : World) : Prop :=
  (m = n ∧ out = Outcome.ret (lastResp env s resp m) (lastErr err m) ∧
    w'.counts (p + m) (s + m) (q + m)) ∨
  (m < n ∧ (∃ e, env.prepare (p + m) = some e ∧
      out = Outcome.ret (lastResp env s resp m) (some e) ∧
      w'.trace.getLast? = some (Event.prepare (some e))) ∧
    w'.counts (p + m + 1) (s + m) (q + m)) ∨
  (m < n ∧ env.prepare (p + m) = none ∧
    ((∃ r e, env.transport (s + m) = (r, some e) ∧ out = Outcome.ret r (some e) ∧
        w'.trace.getLast? = some (Event.send r (some e)) ∧
        w'.counts (p + m + 1) (s + m + 1) (q + m)) ∨
     (env.transport (s + m) = (none, none) ∧ out = Outcome.panic ∧
        w'.counts (p + m + 1) (s + m + 1) (q + m)) ∨
     (∃ r, env.transport (s + m) = (some r, none) ∧ out = Outcome.ret (some r) none ∧
        ((r.StatusCode ≠ StatusTooManyRequests ∧
            w'.trace.getLast? = some (Event.send (some r) none) ∧
            w'.counts (p + m + 1) (s + m + 1) (q + m)) ∨
         (r.StatusCode = StatusTooManyRequests ∧ cooldown env req.Cancel r (q + m) = none ∧
            w'.trace.getLast? = some (Event.send (some r) none) ∧
            w'.counts (p + m + 1) (s + m + 1) (q + m)) ∨
         (r.StatusCode = StatusTooManyRequests ∧ cooldown env req.Cancel r (q + m) = some false ∧
            (∃ d, w'.trace.getLast? = some (Event.wait d false)) ∧
            w'.counts (p + m + 1) (s + m + 1) (q + m + 1))))))

/-! ## Scenarios and concrete runs -/

/-- A call started in world `w` is rate-limited throughout with past-due reset times: every
preparation succeeds, every delegate call answers status 429 without error and with an
`X-RateLimit-Reset` header that parses to an instant not after the clock reading of the wait
that follows, and that wait ends by its timer. -/
def RateLimitedPastDue (env : Env) (req : Request) (w : World) : Prop :=
  ∀ i, env.prepare (w.prepares + i) = none ∧
    ∃ r retryReset, env.transport (w.sends + i) = (some r, none) ∧
      r.StatusCode = StatusTooManyRequests ∧
      ParseInt (r.Header.Get "X-RateLimit-Reset") = some retryReset ∧
      Unix retryReset ≤ env.now (w.waits + i) ∧
      selectTimer (env.now (w.waits + i)) (Sub (Unix retryReset) (env.now (w.waits + i)))
        req.Cancel (env.tie (w.waits + i)) = true

/-- A response with status 429 whose reset header holds `v`. -/
def resp429 (v : String) : Response := ⟨429, [("X-Ratelimit-Reset", [v])]⟩

/-- A request without cancellation channel. -/
def reqPlain : Request := ⟨none⟩

/-- An environment that always answers 429 with reset time 100 s, read at 200 s. -/
def envRateLimited : Env :=
  ⟨fun _ => none, fun _ => (some (resp429 "100"), none), fun _ => 200 * Second, fun _ => true⟩

/-- A response with status 200 and no headers. -/
def respOK : Response := ⟨200, []⟩

/-- An environment whose first answer is a past-due 429 and whose later answers are 200. -/
def envThenOK : Env :=
  ⟨fun _ => none, fun k => if k = 0 then (some (resp429 "100"), none) else (some respOK, none),
    fun _ => 200 * Second, fun _ => true⟩

/-- An environment whose first answer is a past-due 429 and whose later calls fail with a
transport error that comes with a 429 response. -/
def envThenErr : Env :=
  ⟨fun _ => none,
    fun k => if k = 0 then (some (resp429 "100"), none)
      else (some (resp429 "100"), some "connection reset"),
    fun _ => 200 * Second, fun _ => true⟩

/-- An environment that always answers 429 with a reset header that is not a number. -/
def envBadHeader : Env :=
  ⟨fun _ => none, fun _ => (some (resp429 "soon"), none), fun _ => 200 * Second, fun _ => true⟩

/-- An environment that always answers 429 with reset time 300 s, read at 120 s. -/
def envFutureReset : Env :=
  ⟨fun _ => none, fun _ => (some (resp429 "300"), none), fun _ => 120 * Second, fun _ => true⟩

/-- A request whose cancellation channel fires at 150 s. -/
def reqCancelled : Request := ⟨some (150 * Second)⟩

/-- An environment that always answers a past-due 429 and whose second preparation fails. -/
def envPrepareFails : Env :=
  ⟨fun k => if k = 1 then some "body not rewindable" else none,
    fun _ => (some (resp429 "100"), none), fun _ => 200 * Second, fun _ => true⟩

/-! ## Operations, clients and `RetryableTransport.Submit` -/

/-- Address of an `http.Client`; a `*http.Client` is an `Option ClientRef`. -/
abbrev ClientRef := Nat

/-- The address held by the variable `http.DefaultClient`. -/
def DefaultClient : ClientRef := 0

/-- An `http.Client`: its field `Transport` (a round tripper, possibly nil) and its other
fields, taken together as a value of type `β`. -/
structure Client (β : Type) where
  Transport : Option RoundTripper
  others : β

/-- A `runtime.ClientOperation`: its field `Client` (a pointer to a client, possibly nil) and
its other fields, taken together as a value of type `α`. -/
structure ClientOperation (α : Type) where
  Client : Option ClientRef
  others : α

/-- The struct `RetryableTransport`.  The field `tr` is a `runtime.ClientTransport`, given by
a handle whose behaviour is in the `SubmitEnv`. -/
structure RetryableTransport where
  tr : Nat
  attempts : Int
  deriving DecidableEq, Repr

/-- The function `NewRetryableTransport`. -/
def NewRetryableTransport (tr : Nat) (attempts : Int) : RetryableTransport :=
  { tr := tr, attempts := attempts }

/-- The pair `(interface{}, error)` that a `Submit` returns, the value as a handle. -/
abbrev SubmitResult := Option Nat × Option Error

/-- The memory a call of `Submit` works on: the struct behind the receiver `t`, the operation
behind `op`, and the clients by address. -/
structure Memory (α β : Type) where
  t : RetryableTransport
  op : ClientOperation α
  clients : ClientRef → Client β

/-- The behaviour of the client transports: `submit h op clients` is what `Submit(op)` of the
transport with handle `h` returns, and the operation and the clients as it leaves them. -/
structure SubmitEnv (α β : Type) where
  submit : Nat → ClientOperation α → (ClientRef → Client β) →
    SubmitResult × ClientOperation α × (ClientRef → Client β)

/-- What a call of `Submit` leaves: the returned pair, the memory, and the calls of the inner
`Submit` in order, each with the handle called and the memory at the moment of the call. -/
structure Submitted (α β : Type) where
  result : SubmitResult
  memory : Memory α β
  calls : List (Nat × Memory α β)

/-- The method `(*RetryableTransport).Submit`. -/
def RetryableTransport.Submit {α β : Type} (env : SubmitEnv α β) (mem : Memory α β) :
    Submitted α β :=
  let client := match mem.op.Client with
    | none => DefaultClient
    | some c => c
  let transport := match (mem.clients client).Transport with
    | none => RoundTripper.DefaultTransport
    | some tr => tr
  let clients1 := Function.update mem.clients client
    { mem.clients client with
      Transport := some (RoundTripper.retryable transport mem.t.attempts) }
  let op1 : ClientOperation α := { mem.op with Client := some client }
  let mem1 : Memory α β := { t := mem.t, op := op1, clients := clients1 }
  let inner := env.submit mem.t.tr op1 clients1
  { result := inner.1,
    memory := { t := mem.t, op := inner.2.1, clients := inner.2.2 },
    calls := [(mem.t.tr, mem1)] }

/-- An operation without client. -/
def opNoClient : ClientOperation String := { Client := none, others := "getPet" }

/-- Clients that all have a nil transport. -/
def clientsPlain : ClientRef → Client String := fun _ => { Transport := none, others := "" }

/-- A client transport that returns the value 7 and touches nothing. -/
def submitEnvPlain : SubmitEnv String String := ⟨fun _ op clients => ((some 7, none), op, clients)⟩

/-! ## Order of the events of a call -/

/-- Which event comes directly after which in a call of `RoundTrip` over the underlying
transport: a delegate call after a preparation that succeeded, a wait after a delegate call
that answered status 429 without error, a preparation after a wait that ended by its timer;
nothing else follows anything. -/
def Follows : Event → Event → Prop
  | Event.prepare none, Event.send _ _ => True
  | Event.send (some r) none, Event.wait _ _ => r.StatusCode = StatusTooManyRequests
  | Event.wait _ true, Event.prepare _ => True
  | _, _ => False

/-- A list of events is empty or starts with a preparation. -/
def StartsWithPrepare (evs : List Event) : Prop :=
  ∀ y ∈ evs.head?, ∃ e, y = Event.prepare e

/-- An environment whose preparations all fail. -/
def envNeverPrepared : Env :=
  ⟨fun _ => some "body not rewindable", fun _ => (some respOK, none), fun _ => 200 * Second,
    fun _ => true⟩

/-- A request whose cancellation channel has fired at the epoch, before any call. -/
def reqFired : Request := ⟨some 0⟩

/-- An environment that always answers 200. -/
def envAlwaysOK : Env :=
  ⟨fun _ => none, fun _ => (some respOK, none), fun _ => 200 * Second, fun _ => true⟩

/-! ## Wrappers installed by repeated submissions -/

/-- The round tripper `T` inside `k` nested `retryableRoundTripper`s of budget `N`. -/
def nest (T : RoundTripper) (N : Int) : Nat → RoundTripper
  | 0 => T
  | k + 1 => RoundTripper.retryable (nest T N k) N

/-- Calls of `Submit` on the same `RetryableTransport`, one after the other, for the
operations of a list: the clients after the last call. -/
def submitEach {α β : Type} (senv : SubmitEnv α β) (t : RetryableTransport) :
    List (ClientOperation α) → (ClientRef → Client β) → (ClientRef → Client β)
  | [], clients => clients
  | op :: ops, clients =>
    submitEach senv t ops (RetryableTransport.Submit senv ⟨t, op, clients⟩).memory.clients

/-- The underlying transport always answers status 429 without error, with a reset header
that parses to an instant not after any clock reading; every preparation succeeds and every
wait ends by its timer. -/
def AlwaysRateLimited (env : Env) (req : Request) : Prop :=
  (∀ i, env.prepare i = none) ∧
  ∀ i, ∃ r retryReset, env.transport i = (some r, none) ∧
    r.StatusCode = StatusTooManyRequests ∧
    ParseInt (r.Header.Get "X-RateLimit-Reset") = some retryReset ∧
    ∀ j, Unix retryReset ≤ env.now j ∧
      selectTimer (env.now j) (Sub (Unix retryReset) (env.now j)) req.Cancel (env.tie j) = true

/-- A round tripper behaviour that, in every world, answers a 429 response without error
whose wait ends by its timer, and calls the underlying transport `c` times for it. -/
def AnswersRateLimited (env : Env) (req : Request) (f : RoundTripFn) (c : Nat) : Prop :=
  ∀ w, ∃ r w', f req w = (Outcome.ret (some r) none, w') ∧
    r.StatusCode = StatusTooManyRequests ∧
    (∀ j, cooldown env req.Cancel r j = some true) ∧ w'.sends = w.sends + c

/-! ## Lemmas on the retry loop -/

theorem ParseInt_empty : ParseInt "" = none := rfl

theorem delayWithRateLimit_some (env : Env) (r : Response) (cancel : Option Int) (w : World) :
    delayWithRateLimit env (some r) cancel w =
      match cooldown env cancel r w.waits with
      | none => (some false, w)
      | some b =>
        (some b,
          { w with
            waits := w.waits + 1,
            trace := w.trace ++ [Event.wait
              (Sub (Unix ((ParseInt (r.Header.Get "X-RateLimit-Reset")).getD 0)) (env.now w.waits))
              b] }) := by
  unfold delayWithRateLimit cooldown
  by_cases h : r.Header.Get "X-RateLimit-Reset" = ""
  · simp [h, ParseInt_empty]
  · simp only [h, if_false]
    cases hp : ParseInt (r.Header.Get "X-RateLimit-Reset") <;> simp


theorem lastResp_shift (env : Env) (s m : Nat) (resp : Option Response) (r : Response)
    (e : Option Error) (h : env.transport s = (some r, e)) :
    lastResp env (s + 1) (some r) m = lastResp env s resp (m + 1) := by
  unfold lastResp
  rcases Nat.eq_zero_or_pos m with h0 | h0
  · subst h0; simp [h]
  · have h1 : s + 1 + (m - 1) = s + m := by omega
    have h2 : m ≠ 0 := by omega
    simp [h1, h2]

theorem Ending_shift (env : Env) (req : Request) (n : Nat) (resp : Option Response)
    (err : Option Error) (p s q m : Nat) (out : Outcome) (w' : World) (r : Response)
    (ht : env.transport s = (some r, none))
    (h : Ending env req n (some r) none (p + 1) (s + 1) (q + 1) m out w') :
    Ending env req (n + 1) resp err p s q (m + 1) out w' := by
  have hp : p + 1 + m = p + (m + 1) := by omega
  have hs : s + 1 + m = s + (m + 1) := by omega
  have hq : q + 1 + m = q + (m + 1) := by omega
  have hl := lastResp_shift env s m resp r none ht
  unfold Ending at h ⊢
  rw [hp, hs, hq, hl] at h
  have he : lastErr none m = lastErr err (m + 1) := by simp [lastErr]
  rw [he] at h
  simpa using h

theorem retryLoop_shape (env : Env) (req : Request) :
    ∀ (n : Nat) (resp : Option Response) (err : Option Error) (w : World),
      ∃ m, m ≤ n ∧
        (∀ i, i < m → GoesOn env req (w.prepares + i) (w.sends + i) (w.waits + i)) ∧
        Ending env req n resp err w.prepares w.sends w.waits m
          (retryLoop env (baseRoundTrip env) req n resp err w).1
          (retryLoop env (baseRoundTrip env) req n resp err w).2 := by
  intro n
  induction n with
  | zero =>
    intro resp err w
    refine ⟨0, le_refl _, fun i hi => absurd hi (Nat.not_lt_zero i), Or.inl ?_⟩
    simp [retryLoop, lastResp, lastErr, World.counts]
  | succ n ih =>
    intro resp err w
    cases hp : env.prepare w.prepares with
    | some e =>
      refine ⟨0, Nat.zero_le _, fun i hi => absurd hi (Nat.not_lt_zero i), Or.inr (Or.inl ?_)⟩
      simp [retryLoop, Prepare, hp, lastResp, World.counts]
    | none =>
      rcases ht : env.transport w.sends with ⟨ro, eo⟩
      cases eo with
      | some e =>
        refine ⟨0, Nat.zero_le _, fun i hi => absurd hi (Nat.not_lt_zero i),
          Or.inr (Or.inr ⟨Nat.succ_pos n, hp, Or.inl ⟨ro, e, ht, ?_, ?_, ?_⟩⟩)⟩
        · simp [retryLoop, Prepare, baseRoundTrip, hp, ht]
        · simp [retryLoop, Prepare, baseRoundTrip, hp, ht]
        · simp [retryLoop, Prepare, baseRoundTrip, hp, ht, World.counts]
      | none =>
        cases ro with
        | none =>
          refine ⟨0, Nat.zero_le _, fun i hi => absurd hi (Nat.not_lt_zero i),
            Or.inr (Or.inr ⟨Nat.succ_pos n, hp, Or.inr (Or.inl ⟨ht, ?_, ?_⟩)⟩)⟩
          · simp [retryLoop, Prepare, baseRoundTrip, hp, ht]
          · simp [retryLoop, Prepare, baseRoundTrip, hp, ht, World.counts]
        | some r =>
          by_cases hs : r.StatusCode = StatusTooManyRequests
          · cases hc : cooldown env req.Cancel r w.waits with
            | none =>
              refine ⟨0, Nat.zero_le _, fun i hi => absurd hi (Nat.not_lt_zero i),
                Or.inr (Or.inr ⟨Nat.succ_pos n, hp, Or.inr (Or.inr ⟨r, ht, ?_,
                  Or.inr (Or.inl ⟨hs, hc, ?_, ?_⟩)⟩)⟩)⟩
              · simp [retryLoop, Prepare, baseRoundTrip, hp, ht, hs, delayWithRateLimit_some, hc]
              · simp [retryLoop, Prepare, baseRoundTrip, hp, ht, hs, delayWithRateLimit_some, hc]
              · simp [retryLoop, Prepare, baseRoundTrip, hp, ht, hs, delayWithRateLimit_some, hc,
                  World.counts]
            | some b =>
              cases b with
              | false =>
                refine ⟨0, Nat.zero_le _, fun i hi => absurd hi (Nat.not_lt_zero i),
                  Or.inr (Or.inr ⟨Nat.succ_pos n, hp, Or.inr (Or.inr ⟨r, ht, ?_,
                    Or.inr (Or.inr ⟨hs, hc, ?_, ?_⟩)⟩)⟩)⟩
                · simp [retryLoop, Prepare, baseRoundTrip, hp, ht, hs, delayWithRateLimit_some, hc]
                · simp [retryLoop, Prepare, baseRoundTrip, hp, ht, hs, delayWithRateLimit_some, hc]
                · simp [retryLoop, Prepare, baseRoundTrip, hp, ht, hs, delayWithRateLimit_some,
                    hc, World.counts]
              | true =>
                obtain ⟨w3, hw3, hstep⟩ : ∃ w3 : World,
                    w3.counts (w.prepares + 1) (w.sends + 1) (w.waits + 1) ∧
                    retryLoop env (baseRoundTrip env) req (n + 1) resp err w =
                      retryLoop env (baseRoundTrip env) req n (some r) none w3 := by
                  refine ⟨(delayWithRateLimit env (some r) req.Cancel
                    (baseRoundTrip env req (Prepare env w).2).2).2, ?_, ?_⟩
                  · simp [Prepare, baseRoundTrip, delayWithRateLimit_some, hc, World.counts]
                  · simp [retryLoop, Prepare, baseRoundTrip, hp, ht, hs, delayWithRateLimit_some,
                      hc]
                obtain ⟨m, hm, hgo, hend⟩ := ih (some r) none w3
                obtain ⟨h1, h2, h3⟩ := hw3
                rw [h1, h2, h3] at hend hgo
                refine ⟨m + 1, Nat.succ_le_succ hm, ?_, ?_⟩
                · intro i hi
                  cases i with
                  | zero => exact ⟨hp, r, ht, hs, hc⟩
                  | succ j =>
                    have hj := hgo j (Nat.lt_of_succ_lt_succ hi)
                    have e1 : w.prepares + 1 + j = w.prepares + (j + 1) := by omega
                    have e2 : w.sends + 1 + j = w.sends + (j + 1) := by omega
                    have e3 : w.waits + 1 + j = w.waits + (j + 1) := by omega
                    rw [e1, e2, e3] at hj
                    exact hj
                · rw [hstep]
                  exact Ending_shift env req n resp err _ _ _ m _ _ r ht hend
          · refine ⟨0, Nat.zero_le _, fun i hi => absurd hi (Nat.not_lt_zero i),
              Or.inr (Or.inr ⟨Nat.succ_pos n, hp, Or.inr (Or.inr ⟨r, ht, ?_,
                Or.inl ⟨hs, ?_, ?_⟩⟩)⟩)⟩
            · simp [retryLoop, Prepare, baseRoundTrip, hp, ht, hs]
            · simp [retryLoop, Prepare, baseRoundTrip, hp, ht, hs]
            · simp [retryLoop, Prepare, baseRoundTrip, hp, ht, hs, World.counts]

theorem cooldown_of_parse (env : Env) (cancel : Option Int) (r : Response) (j : Nat)
    (retryReset : Int) (h : ParseInt (r.Header.Get "X-RateLimit-Reset") = some retryReset) :
    cooldown env cancel r j =
      some (selectTimer (env.now j) (Sub (Unix retryReset) (env.now j)) cancel (env.tie j)) := by
  simp [cooldown, h]

theorem wrapInt_succ (N : Nat) (hN : (N : Int) < maxInt) :
    (wrapInt ((N : Int) + 1)).toNat = N + 1 := by
  simp only [wrapInt, maxInt, intSize] at *
  norm_num at *
  omega

theorem wrapInt_maxInt_succ : (wrapInt (maxInt + 1)).toNat = 0 := by
  decide

theorem RateLimitedPastDue.goesOn {env : Env} {req : Request} {w : World}
    (h : RateLimitedPastDue env req w) (i : Nat) :
    GoesOn env req (w.prepares + i) (w.sends + i) (w.waits + i) := by
  obtain ⟨hp, r, retryReset, ht, hs, hparse, _, hsel⟩ := h i
  exact ⟨hp, r, ht, hs, by rw [cooldown_of_parse env _ r _ retryReset hparse, hsel]⟩

theorem rateLimited_loop (env : Env) (req : Request) (w : World)
    (h : RateLimitedPastDue env req w) (n : Nat) (resp : Option Response) (err : Option Error) :
    (retryLoop env (baseRoundTrip env) req n resp err w).1 =
        Outcome.ret (lastResp env w.sends resp n) (lastErr err n) ∧
      (retryLoop env (baseRoundTrip env) req n resp err w).2.counts
        (w.prepares + n) (w.sends + n) (w.waits + n) := by
  obtain ⟨m, _, _, hend⟩ := retryLoop_shape env req n resp err w
  obtain ⟨hp, r, ht, hs, hc⟩ := h.goesOn m
  rcases hend with ⟨hmn, hout, hcnt⟩ | ⟨_, ⟨e, hpe, _⟩, _⟩ | ⟨_, _, hsend⟩
  · subst hmn
    exact ⟨hout, hcnt⟩
  · rw [hp] at hpe
    cases hpe
  · rcases hsend with ⟨r2, e, ht2, _⟩ | ⟨ht2, _⟩ | ⟨r2, ht2, _, hrest⟩
    · rw [ht] at ht2
      cases ht2
    · rw [ht] at ht2
      cases ht2
    · rw [ht] at ht2
      cases ht2
      rcases hrest with ⟨hs2, _⟩ | ⟨_, hc2, _⟩ | ⟨_, hc2, _⟩
      · exact absurd hs hs2
      · rw [hc] at hc2
        cases hc2
      · rw [hc] at hc2
        cases hc2

theorem envRateLimited_pastDue : RateLimitedPastDue envRateLimited reqPlain World.init := by
  intro i
  refine ⟨rfl, resp429 "100", 100, rfl, rfl, by decide, ?_, rfl⟩
  show Unix 100 ≤ 200 * Second
  decide

/-- Where the increment of the budget does not wrap around (`0 ≤ N < maxInt`), on a run where
every preparation succeeds and every delegate response is a 429 whose reset header parses to a
past instant and whose wait ends by its timer, one call of `RoundTrip` calls the delegate
exactly `N + 1` times. -/
theorem rateLimited_sends (env : Env) (req : Request) (w : World) (N : Nat)
    (hN : (N : Int) < maxInt) (h : RateLimitedPastDue env req w) :
    (retryableRoundTripper.RoundTrip env (baseRoundTrip env) N req w).2.sends =
      w.sends + (N + 1) := by
  unfold retryableRoundTripper.RoundTrip
  rw [wrapInt_succ N hN]
  exact (rateLimited_loop env req w h (N + 1) none none).2.2.1

theorem rateLimited_sends_witness :
    (retryableRoundTripper.RoundTrip envRateLimited (baseRoundTrip envRateLimited) (2 : Nat)
      reqPlain World.init).2.sends = World.init.sends + (2 + 1) :=
  rateLimited_sends envRateLimited reqPlain World.init 2 (by decide) envRateLimited_pastDue

/-- C1, the code at the failing input: with the largest budget a Go `int` holds, on a run
that is rate-limited throughout with past-due reset times, the increment `attempts++` wraps
around and the delegate is never called, where the claim, and the comment on the increment
("to add the first call"), ask for `maxInt + 1` calls. -/
theorem rateLimited_sends_maxInt :
    0 ≤ maxInt ∧ RateLimitedPastDue envRateLimited reqPlain World.init ∧
      (retryableRoundTripper.RoundTrip envRateLimited (baseRoundTrip envRateLimited) maxInt
        reqPlain World.init).2.sends = 0 ∧
      (((retryableRoundTripper.RoundTrip envRateLimited (baseRoundTrip envRateLimited) maxInt
        reqPlain World.init).2.sends : Nat) : Int) ≠ maxInt + 1 := by
  refine ⟨by decide, envRateLimited_pastDue, by decide, by decide⟩

theorem Ending.sends_le {env : Env} {req : Request} {n : Nat} {resp : Option Response}
    {err : Option Error} {p s q m : Nat} {out : Outcome} {w' : World}
    (h : Ending env req n resp err p s q m out w') : w'.sends ≤ s + m + 1 := by
  unfold Ending World.counts at h
  rcases h with ⟨_, _, _, h, _⟩ | ⟨_, _, _, h, _⟩ |
    ⟨_, _, ⟨_, _, _, _, _, _, h, _⟩ | ⟨_, _, _, h, _⟩ |
      ⟨_, _, _, ⟨_, _, _, h, _⟩ | ⟨_, _, _, _, h, _⟩ | ⟨_, _, _, _, h, _⟩⟩⟩ <;> omega

theorem Ending.prepares_le {env : Env} {req : Request} {n : Nat} {resp : Option Response}
    {err : Option Error} {p s q m : Nat} {out : Outcome} {w' : World}
    (h : Ending env req n resp err p s q m out w') : w'.prepares ≤ p + m + 1 := by
  unfold Ending World.counts at h
  rcases h with ⟨_, _, h, _⟩ | ⟨_, _, h, _⟩ |
    ⟨_, _, ⟨_, _, _, _, _, h, _⟩ | ⟨_, _, h, _⟩ |
      ⟨_, _, _, ⟨_, _, h, _⟩ | ⟨_, _, _, h, _⟩ | ⟨_, _, _, h, _⟩⟩⟩ <;> omega

/-- C3: whatever the budget, when the `k`-th delegate call of a `RoundTrip` takes place and
answers without error and with a status other than 429, `RoundTrip` returns that response
with a nil error, the delegate call is the last event of the call (no wait follows it), and
the delegate has been called `k + 1` times in all (once when `k = 0`), with the `k` waits of
the earlier attempts only. -/
theorem passThrough_returns (env : Env) (req : Request) (w : World) (N : Int) (k : Nat)
    (r : Response)
    (hcall : w.sends + k <
      (retryableRoundTripper.RoundTrip env (baseRoundTrip env) N req w).2.sends)
    (hresp : env.transport (w.sends + k) = (some r, none))
    (hstatus : r.StatusCode ≠ StatusTooManyRequests) :
    (retryableRoundTripper.RoundTrip env (baseRoundTrip env) N req w).1 =
        Outcome.ret (some r) none ∧
      (retryableRoundTripper.RoundTrip env (baseRoundTrip env) N req w).2.sends =
        w.sends + k + 1 ∧
      (retryableRoundTripper.RoundTrip env (baseRoundTrip env) N req w).2.waits =
        w.waits + k ∧
      (retryableRoundTripper.RoundTrip env (baseRoundTrip env) N req w).2.trace.getLast? =
        some (Event.send (some r) none) := by
  simp only [retryableRoundTripper.RoundTrip] at hcall ⊢
  obtain ⟨m, _, hgo, hend⟩ :=
    retryLoop_shape env req (wrapInt (N + 1)).toNat none none w
  generalize retryLoop env (baseRoundTrip env) req (wrapInt (N + 1)).toNat none none w = res
    at hcall hend ⊢
  have hle := hend.sends_le
  have hkm : k = m := by
    rcases Nat.lt_or_ge k m with hlt | hge
    · obtain ⟨_, r2, ht2, hs2, _⟩ := hgo k hlt
      rw [hresp] at ht2
      cases ht2
      exact absurd hs2 hstatus
    · omega
  subst hkm
  unfold Ending World.counts at hend
  rcases hend with ⟨_, _, _, h, _⟩ | ⟨_, _, _, h, _⟩ | ⟨_, _, hsend⟩
  · omega
  · omega
  · rcases hsend with ⟨r2, e, ht2, _⟩ | ⟨ht2, _⟩ | ⟨r2, ht2, hout, hrest⟩
    · rw [hresp] at ht2
      cases ht2
    · rw [hresp] at ht2
      cases ht2
    · rw [hresp] at ht2
      cases ht2
      rcases hrest with ⟨_, hlast, _, h2, h3⟩ | ⟨hs2, _⟩ | ⟨hs2, _⟩
      · exact ⟨hout, h2, h3, hlast⟩
      · exact absurd hs2 hstatus
      · exact absurd hs2 hstatus

theorem passThrough_returns_witness :
    (retryableRoundTripper.RoundTrip envThenOK (baseRoundTrip envThenOK) 3 reqPlain
        World.init).1 = Outcome.ret (some respOK) none ∧
      (retryableRoundTripper.RoundTrip envThenOK (baseRoundTrip envThenOK) 3 reqPlain
        World.init).2.sends = World.init.sends + 1 + 1 ∧
      (retryableRoundTripper.RoundTrip envThenOK (baseRoundTrip envThenOK) 3 reqPlain
        World.init).2.waits = World.init.waits + 1 ∧
      (retryableRoundTripper.RoundTrip envThenOK (baseRoundTrip envThenOK) 3 reqPlain
        World.init).2.trace.getLast? = some (Event.send (some respOK) none) :=
  passThrough_returns envThenOK reqPlain World.init 3 1 respOK (by decide) rfl (by decide)

/-- Where the increment of the budget does not wrap around (`0 ≤ N < maxInt`), on a run that
is rate-limited throughout with past-due reset times, `RoundTrip` returns the response of the
`(N + 1)`-th delegate call, whose status is 429, together with a nil error. -/
theorem rateLimited_returns (env : Env) (req : Request) (w : World) (N : Nat)
    (hN : (N : Int) < maxInt) (h : RateLimitedPastDue env req w) :
    ∃ r, env.transport (w.sends + N) = (some r, none) ∧
      r.StatusCode = StatusTooManyRequests ∧
      (retryableRoundTripper.RoundTrip env (baseRoundTrip env) N req w).1 =
        Outcome.ret (some r) none := by
  obtain ⟨_, r, _, ht, hs, _⟩ := h N
  refine ⟨r, ht, hs, ?_⟩
  unfold retryableRoundTripper.RoundTrip
  rw [wrapInt_succ N hN, (rateLimited_loop env req w h (N + 1) none none).1]
  simp [lastResp, lastErr, ht]

theorem rateLimited_returns_witness :
    ∃ r, envRateLimited.transport (World.init.sends + 2) = (some r, none) ∧
      r.StatusCode = StatusTooManyRequests ∧
      (retryableRoundTripper.RoundTrip envRateLimited (baseRoundTrip envRateLimited) (2 : Nat)
        reqPlain World.init).1 = Outcome.ret (some r) none :=
  rateLimited_returns envRateLimited reqPlain World.init 2 (by decide) envRateLimited_pastDue

/-- C2, the code at the failing input: with the largest budget a Go `int` holds, on a run
that is rate-limited throughout with past-due reset times, the increment `attempts++` wraps
around and `RoundTrip` returns a nil response and a nil error, where the claim asks for the
429 response of the `(maxInt + 1)`-th delegate call. -/
theorem rateLimited_returns_maxInt :
    0 ≤ maxInt ∧ RateLimitedPastDue envRateLimited reqPlain World.init ∧
      (retryableRoundTripper.RoundTrip envRateLimited (baseRoundTrip envRateLimited) maxInt
        reqPlain World.init).1 = Outcome.ret none none ∧
      (retryableRoundTripper.RoundTrip envRateLimited (baseRoundTrip envRateLimited) maxInt
        reqPlain World.init).1 ≠
          Outcome.ret (envRateLimited.transport (World.init.sends + maxInt.toNat)).1 none := by
  refine ⟨by decide, envRateLimited_pastDue, by decide, by decide⟩

/-- C4: whatever the budget, when the `k`-th delegate call of a `RoundTrip` takes place and
returns a non-nil error, `RoundTrip` returns the same pair of response and error, whatever the
response is; the delegate call is the last event of the call (no wait follows it) and the
delegate has been called `k + 1` times in all, with the `k` waits of the earlier attempts
only. -/
theorem transportError_returns (env : Env) (req : Request) (w : World) (N : Int) (k : Nat)
    (ro : Option Response) (e : Error)
    (hcall : w.sends + k <
      (retryableRoundTripper.RoundTrip env (baseRoundTrip env) N req w).2.sends)
    (hresp : env.transport (w.sends + k) = (ro, some e)) :
    (retryableRoundTripper.RoundTrip env (baseRoundTrip env) N req w).1 =
        Outcome.ret ro (some e) ∧
      (retryableRoundTripper.RoundTrip env (baseRoundTrip env) N req w).2.sends =
        w.sends + k + 1 ∧
      (retryableRoundTripper.RoundTrip env (baseRoundTrip env) N req w).2.waits =
        w.waits + k ∧
      (retryableRoundTripper.RoundTrip env (baseRoundTrip env) N req w).2.trace.getLast? =
        some (Event.send ro (some e)) := by
  simp only [retryableRoundTripper.RoundTrip] at hcall ⊢
  obtain ⟨m, _, hgo, hend⟩ :=
    retryLoop_shape env req (wrapInt (N + 1)).toNat none none w
  generalize retryLoop env (baseRoundTrip env) req (wrapInt (N + 1)).toNat none none w = res
    at hcall hend ⊢
  have hle := hend.sends_le
  have hkm : k = m := by
    rcases Nat.lt_or_ge k m with hlt | hge
    · obtain ⟨_, r2, ht2, _⟩ := hgo k hlt
      rw [hresp] at ht2
      cases ht2
    · omega
  subst hkm
  unfold Ending World.counts at hend
  rcases hend with ⟨_, _, _, h, _⟩ | ⟨_, _, _, h, _⟩ | ⟨_, _, hsend⟩
  · omega
  · omega
  · rcases hsend with ⟨r2, e2, ht2, hout, hlast, _, h2, h3⟩ | ⟨ht2, _⟩ | ⟨r2, ht2, _⟩
    · rw [hresp] at ht2
      cases ht2
      exact ⟨hout, h2, h3, hlast⟩
    · rw [hresp] at ht2
      cases ht2
    · rw [hresp] at ht2
      cases ht2

theorem transportError_returns_witness :
    (retryableRoundTripper.RoundTrip envThenErr (baseRoundTrip envThenErr) 3 reqPlain
        World.init).1 = Outcome.ret (some (resp429 "100")) (some "connection reset") ∧
      (retryableRoundTripper.RoundTrip envThenErr (baseRoundTrip envThenErr) 3 reqPlain
        World.init).2.sends = World.init.sends + 1 + 1 ∧
      (retryableRoundTripper.RoundTrip envThenErr (baseRoundTrip envThenErr) 3 reqPlain
        World.init).2.waits = World.init.waits + 1 ∧
      (retryableRoundTripper.RoundTrip envThenErr (baseRoundTrip envThenErr) 3 reqPlain
        World.init).2.trace.getLast? =
          some (Event.send (some (resp429 "100")) (some "connection reset")) :=
  transportError_returns envThenErr reqPlain World.init 3 1 (some (resp429 "100"))
    "connection reset" (by decide) rfl

/-- C5: whatever the budget (in particular for every budget above 0), when the first delegate
call of a `RoundTrip` takes place and answers, without error, status 429 with an
`X-RateLimit-Reset` header that is missing or does not parse as a number, `RoundTrip` returns
that response unchanged with a nil error and the delegate has been called exactly once; no
wait is made. -/
theorem unusableReset_returns (env : Env) (req : Request) (w : World) (N : Int)
    (r : Response)
    (hcall : w.sends <
      (retryableRoundTripper.RoundTrip env (baseRoundTrip env) N req w).2.sends)
    (hresp : env.transport w.sends = (some r, none))
    (hstatus : r.StatusCode = StatusTooManyRequests)
    (hheader : r.Header.Get "X-RateLimit-Reset" = "" ∨
      ParseInt (r.Header.Get "X-RateLimit-Reset") = none) :
    (retryableRoundTripper.RoundTrip env (baseRoundTrip env) N req w).1 =
        Outcome.ret (some r) none ∧
      (retryableRoundTripper.RoundTrip env (baseRoundTrip env) N req w).2.sends =
        w.sends + 1 ∧
      (retryableRoundTripper.RoundTrip env (baseRoundTrip env) N req w).2.waits = w.waits := by
  have hparse : ParseInt (r.Header.Get "X-RateLimit-Reset") = none := by
    rcases hheader with h | h
    · rw [h]; rfl
    · exact h
  have hcool : ∀ j, cooldown env req.Cancel r j = none := by
    intro j
    simp [cooldown, hparse]
  simp only [retryableRoundTripper.RoundTrip] at hcall ⊢
  obtain ⟨m, _, hgo, hend⟩ :=
    retryLoop_shape env req (wrapInt (N + 1)).toNat none none w
  generalize retryLoop env (baseRoundTrip env) req (wrapInt (N + 1)).toNat none none w = res
    at hcall hend ⊢
  have hm : m = 0 := by
    rcases Nat.eq_zero_or_pos m with h0 | hpos
    · exact h0
    · obtain ⟨_, r2, ht2, _, hc2⟩ := hgo 0 hpos
      rw [Nat.add_zero, hresp] at ht2
      cases ht2
      rw [hcool] at hc2
      cases hc2
  subst hm
  unfold Ending World.counts at hend
  simp only [Nat.add_zero] at hend
  rcases hend with ⟨_, _, _, h, _⟩ | ⟨_, _, _, h, _⟩ | ⟨_, _, hsend⟩
  · omega
  · omega
  · rcases hsend with ⟨r2, e2, ht2, _⟩ | ⟨ht2, _⟩ | ⟨r2, ht2, hout, hrest⟩
    · rw [hresp] at ht2
      cases ht2
    · rw [hresp] at ht2
      cases ht2
    · rw [hresp] at ht2
      cases ht2
      rcases hrest with ⟨hs2, _⟩ | ⟨_, _, _, _, h2, h3⟩ | ⟨_, hc2, _⟩
      · exact absurd hstatus hs2
      · exact ⟨hout, h2, h3⟩
      · rw [hcool] at hc2
        cases hc2

theorem unusableReset_returns_witness :
    (retryableRoundTripper.RoundTrip envBadHeader (baseRoundTrip envBadHeader) 3 reqPlain
        World.init).1 = Outcome.ret (some (resp429 "soon")) none ∧
      (retryableRoundTripper.RoundTrip envBadHeader (baseRoundTrip envBadHeader) 3 reqPlain
        World.init).2.sends = World.init.sends + 1 ∧
      (retryableRoundTripper.RoundTrip envBadHeader (baseRoundTrip envBadHeader) 3 reqPlain
        World.init).2.waits = World.init.waits :=
  unusableReset_returns envBadHeader reqPlain World.init 3 (resp429 "soon") (by decide) rfl rfl
    (Or.inr (by decide))

/-- C6: whatever the budget, when the `k`-th delegate call of a `RoundTrip` takes place and
answers, without error, status 429 with a reset header that parses, and the `select` of the
wait that follows takes the cancellation case, `RoundTrip` returns that response with a nil
error (no cancellation error); the cancelled wait is the last event of the call, so that no
further preparation or delegate call is made: `k + 1` of each in all. -/
theorem cancelledWait_returns (env : Env) (req : Request) (w : World) (N : Int) (k : Nat)
    (r : Response) (retryReset : Int)
    (hcall : w.sends + k <
      (retryableRoundTripper.RoundTrip env (baseRoundTrip env) N req w).2.sends)
    (hresp : env.transport (w.sends + k) = (some r, none))
    (hstatus : r.StatusCode = StatusTooManyRequests)
    (hparse : ParseInt (r.Header.Get "X-RateLimit-Reset") = some retryReset)
    (hcancel : selectTimer (env.now (w.waits + k))
      (Sub (Unix retryReset) (env.now (w.waits + k))) req.Cancel (env.tie (w.waits + k)) =
        false) :
    (retryableRoundTripper.RoundTrip env (baseRoundTrip env) N req w).1 =
        Outcome.ret (some r) none ∧
      (retryableRoundTripper.RoundTrip env (baseRoundTrip env) N req w).2.prepares =
        w.prepares + k + 1 ∧
      (retryableRoundTripper.RoundTrip env (baseRoundTrip env) N req w).2.sends =
        w.sends + k + 1 ∧
      ∃ d, (retryableRoundTripper.RoundTrip env (baseRoundTrip env) N req w).2.trace.getLast? =
        some (Event.wait d false) := by
  have hcool : cooldown env req.Cancel r (w.waits + k) = some false := by
    rw [cooldown_of_parse env _ r _ retryReset hparse, hcancel]
  simp only [retryableRoundTripper.RoundTrip] at hcall ⊢
  obtain ⟨m, _, hgo, hend⟩ :=
    retryLoop_shape env req (wrapInt (N + 1)).toNat none none w
  generalize retryLoop env (baseRoundTrip env) req (wrapInt (N + 1)).toNat none none w = res
    at hcall hend ⊢
  have hle := hend.sends_le
  have hkm : k = m := by
    rcases Nat.lt_or_ge k m with hlt | hge
    · obtain ⟨_, r2, ht2, _, hc2⟩ := hgo k hlt
      rw [hresp] at ht2
      cases ht2
      rw [hcool] at hc2
      cases hc2
    · omega
  subst hkm
  unfold Ending World.counts at hend
  rcases hend with ⟨_, _, _, h, _⟩ | ⟨_, _, _, h, _⟩ | ⟨_, _, hsend⟩
  · omega
  · omega
  · rcases hsend with ⟨r2, e2, ht2, _⟩ | ⟨ht2, _⟩ | ⟨r2, ht2, hout, hrest⟩
    · rw [hresp] at ht2
      cases ht2
    · rw [hresp] at ht2
      cases ht2
    · rw [hresp] at ht2
      cases ht2
      rcases hrest with ⟨hs2, _⟩ | ⟨_, hc2, _⟩ | ⟨_, _, hlast, h1, h2, _⟩
      · exact absurd hstatus hs2
      · rw [hcool] at hc2
        cases hc2
      · exact ⟨hout, h1, h2, hlast⟩

theorem cancelledWait_returns_witness :
    (retryableRoundTripper.RoundTrip envFutureReset (baseRoundTrip envFutureReset) 2
        reqCancelled World.init).1 = Outcome.ret (some (resp429 "300")) none ∧
      (retryableRoundTripper.RoundTrip envFutureReset (baseRoundTrip envFutureReset) 2
        reqCancelled World.init).2.prepares = World.init.prepares + 0 + 1 ∧
      (retryableRoundTripper.RoundTrip envFutureReset (baseRoundTrip envFutureReset) 2
        reqCancelled World.init).2.sends = World.init.sends + 0 + 1 ∧
      ∃ d, (retryableRoundTripper.RoundTrip envFutureReset (baseRoundTrip envFutureReset) 2
        reqCancelled World.init).2.trace.getLast? = some (Event.wait d false) :=
  cancelledWait_returns envFutureReset reqCancelled World.init 2 0 (resp429 "300") 300
    (by decide) rfl rfl (by decide) (by decide)

/-- C7: whatever the budget, when the preparation of attempt `k` of a `RoundTrip` takes place
and fails, `RoundTrip` returns that preparation error as its error; the failed preparation is
the last event of the call, so that the delegate is not called in attempt `k` and no later
attempt is made: the delegate has been called exactly `k` times in all (not at all when
`k = 0`). -/
theorem prepareError_returns (env : Env) (req : Request) (w : World) (N : Int) (k : Nat)
    (e : Error)
    (hcall : w.prepares + k <
      (retryableRoundTripper.RoundTrip env (baseRoundTrip env) N req w).2.prepares)
    (hfail : env.prepare (w.prepares + k) = some e) :
    (∃ resp, (retryableRoundTripper.RoundTrip env (baseRoundTrip env) N req w).1 =
        Outcome.ret resp (some e)) ∧
      (retryableRoundTripper.RoundTrip env (baseRoundTrip env) N req w).2.sends =
        w.sends + k ∧
      (retryableRoundTripper.RoundTrip env (baseRoundTrip env) N req w).2.prepares =
        w.prepares + k + 1 ∧
      (retryableRoundTripper.RoundTrip env (baseRoundTrip env) N req w).2.trace.getLast? =
        some (Event.prepare (some e)) := by
  simp only [retryableRoundTripper.RoundTrip] at hcall ⊢
  obtain ⟨m, _, hgo, hend⟩ :=
    retryLoop_shape env req (wrapInt (N + 1)).toNat none none w
  generalize retryLoop env (baseRoundTrip env) req (wrapInt (N + 1)).toNat none none w = res
    at hcall hend ⊢
  have hle := hend.prepares_le
  have hkm : k = m := by
    rcases Nat.lt_or_ge k m with hlt | hge
    · obtain ⟨hp2, _⟩ := hgo k hlt
      rw [hfail] at hp2
      cases hp2
    · omega
  subst hkm
  unfold Ending World.counts at hend
  rcases hend with ⟨_, _, h, _⟩ | ⟨_, ⟨e2, hp2, hout, hlast⟩, h1, h2, _⟩ | ⟨_, hp2, _⟩
  · omega
  · rw [hfail] at hp2
    cases hp2
    exact ⟨⟨_, hout⟩, h2, h1, hlast⟩
  · rw [hfail] at hp2
    cases hp2

theorem prepareError_returns_witness :
    (∃ resp, (retryableRoundTripper.RoundTrip envPrepareFails (baseRoundTrip envPrepareFails) 2
        reqPlain World.init).1 = Outcome.ret resp (some "body not rewindable")) ∧
      (retryableRoundTripper.RoundTrip envPrepareFails (baseRoundTrip envPrepareFails) 2
        reqPlain World.init).2.sends = World.init.sends + 1 ∧
      (retryableRoundTripper.RoundTrip envPrepareFails (baseRoundTrip envPrepareFails) 2
        reqPlain World.init).2.prepares = World.init.prepares + 1 + 1 ∧
      (retryableRoundTripper.RoundTrip envPrepareFails (baseRoundTrip envPrepareFails) 2
        reqPlain World.init).2.trace.getLast? =
          some (Event.prepare (some "body not rewindable")) :=
  prepareError_returns envPrepareFails reqPlain World.init 2 1 "body not rewindable"
    (by decide) rfl

/-- C8 fails as stated: with budget 1, a first answer 429 whose wait ends by its timer and a
second preparation that fails, one delegate call is made and it produced a nil error, but
`RoundTrip` returns its response together with the preparation error. -/
theorem returned_pair_not_last_delegate_pair :
    0 < (retryableRoundTripper.RoundTrip envPrepareFails (baseRoundTrip envPrepareFails) 1
        reqPlain World.init).2.sends ∧
      envPrepareFails.transport
        ((retryableRoundTripper.RoundTrip envPrepareFails (baseRoundTrip envPrepareFails) 1
          reqPlain World.init).2.sends - 1) = (some (resp429 "100"), none) ∧
      (retryableRoundTripper.RoundTrip envPrepareFails (baseRoundTrip envPrepareFails) 1
        reqPlain World.init).1 =
          Outcome.ret (some (resp429 "100")) (some "body not rewindable") ∧
      (retryableRoundTripper.RoundTrip envPrepareFails (baseRoundTrip envPrepareFails) 1
        reqPlain World.init).1 ≠
          Outcome.ret
            (envPrepareFails.transport
              ((retryableRoundTripper.RoundTrip envPrepareFails
                (baseRoundTrip envPrepareFails) 1 reqPlain World.init).2.sends - 1)).1
            (envPrepareFails.transport
              ((retryableRoundTripper.RoundTrip envPrepareFails
                (baseRoundTrip envPrepareFails) 1 reqPlain World.init).2.sends - 1)).2 := by
  refine ⟨by decide, by decide, by decide, by decide⟩

/-- C8 (as amended): in every `RoundTrip` that makes at least one delegate call and returns,
the returned response is the one produced by the most recent delegate call; the returned
error is the error of that call when the last preparation of the call succeeded, and is the
preparation error when the last preparation failed. -/
theorem returned_pair_of_last_attempt (env : Env) (req : Request) (w : World) (N : Int)
    (resp : Option Response) (err : Option Error)
    (hcall : w.sends <
      (retryableRoundTripper.RoundTrip env (baseRoundTrip env) N req w).2.sends)
    (hret : (retryableRoundTripper.RoundTrip env (baseRoundTrip env) N req w).1 =
      Outcome.ret resp err) :
    resp = (env.transport
        ((retryableRoundTripper.RoundTrip env (baseRoundTrip env) N req w).2.sends - 1)).1 ∧
      (env.prepare
          ((retryableRoundTripper.RoundTrip env (baseRoundTrip env) N req w).2.prepares - 1) =
            none →
        err = (env.transport
          ((retryableRoundTripper.RoundTrip env (baseRoundTrip env) N req w).2.sends - 1)).2) ∧
      (∀ e, env.prepare
          ((retryableRoundTripper.RoundTrip env (baseRoundTrip env) N req w).2.prepares - 1) =
            some e →
        err = some e) := by
  simp only [retryableRoundTripper.RoundTrip] at hcall hret ⊢
  obtain ⟨m, _, hgo, hend⟩ :=
    retryLoop_shape env req (wrapInt (N + 1)).toNat none none w
  generalize retryLoop env (baseRoundTrip env) req (wrapInt (N + 1)).toNat none none w = res
    at hcall hret hend ⊢
  unfold Ending World.counts at hend
  rcases hend with ⟨_, hout, h1, h2, _⟩ | ⟨_, ⟨e2, hp2, hout, _⟩, h1, h2, _⟩ | ⟨_, hp2, hsend⟩
  · have hm : 0 < m := by omega
    obtain ⟨hp3, r3, ht3, _⟩ := hgo (m - 1) (by omega)
    have e1 : res.2.sends - 1 = w.sends + (m - 1) := by omega
    have e2 : res.2.prepares - 1 = w.prepares + (m - 1) := by omega
    rw [hret] at hout
    rw [e1, e2, ht3, hp3]
    have hm0 : m ≠ 0 := by omega
    simp only [lastResp, lastErr, hm0, if_false, ht3] at hout
    cases hout
    simp
  · have hm : 0 < m := by omega
    obtain ⟨_, r3, ht3, _⟩ := hgo (m - 1) (by omega)
    have e1 : res.2.sends - 1 = w.sends + (m - 1) := by omega
    have e2 : res.2.prepares - 1 = w.prepares + m := by omega
    rw [hret] at hout
    rw [e1, e2, ht3, hp2]
    have hm0 : m ≠ 0 := by omega
    simp only [lastResp, hm0, if_false, ht3] at hout
    cases hout
    simp
  · rcases hsend with ⟨r2, e3, ht2, hout, _, h1, h2, _⟩ | ⟨_, hout, _⟩ | ⟨r2, ht2, hout, hrest⟩
    · have e1 : res.2.sends - 1 = w.sends + m := by omega
      have e2 : res.2.prepares - 1 = w.prepares + m := by omega
      rw [hret] at hout
      rw [e1, e2, ht2, hp2]
      cases hout
      simp
    · rw [hret] at hout
      cases hout
    · have hcnt : res.2.prepares = w.prepares + m + 1 ∧ res.2.sends = w.sends + m + 1 := by
        rcases hrest with ⟨_, _, h1, h2, _⟩ | ⟨_, _, _, h1, h2, _⟩ | ⟨_, _, _, h1, h2, _⟩ <;>
          exact ⟨h1, h2⟩
      have e1 : res.2.sends - 1 = w.sends + m := by omega
      have e2 : res.2.prepares - 1 = w.prepares + m := by omega
      rw [hret] at hout
      rw [e1, e2, ht2, hp2]
      cases hout
      simp

theorem returned_pair_of_last_attempt_witness :
    some (resp429 "100") = (envPrepareFails.transport
        ((retryableRoundTripper.RoundTrip envPrepareFails (baseRoundTrip envPrepareFails) 1
          reqPlain World.init).2.sends - 1)).1 ∧
      (envPrepareFails.prepare
          ((retryableRoundTripper.RoundTrip envPrepareFails (baseRoundTrip envPrepareFails) 1
            reqPlain World.init).2.prepares - 1) = none →
        some "body not rewindable" = (envPrepareFails.transport
          ((retryableRoundTripper.RoundTrip envPrepareFails (baseRoundTrip envPrepareFails) 1
            reqPlain World.init).2.sends - 1)).2) ∧
      (∀ e, envPrepareFails.prepare
          ((retryableRoundTripper.RoundTrip envPrepareFails (baseRoundTrip envPrepareFails) 1
            reqPlain World.init).2.prepares - 1) = some e →
        some "body not rewindable" = some e) :=
  returned_pair_of_last_attempt envPrepareFails reqPlain World.init 1 (some (resp429 "100"))
    (some "body not rewindable") (by decide) (by decide)

theorem Submit_calls {α β : Type} (env : SubmitEnv α β) (mem : Memory α β) :
    (RetryableTransport.Submit env mem).calls =
      [(mem.t.tr,
        { t := mem.t,
          op := { mem.op with Client := some (mem.op.Client.getD DefaultClient) },
          clients := Function.update mem.clients (mem.op.Client.getD DefaultClient)
            { mem.clients (mem.op.Client.getD DefaultClient) with
              Transport := some (RoundTripper.retryable
                ((mem.clients (mem.op.Client.getD DefaultClient)).Transport.getD
                  RoundTripper.DefaultTransport) mem.t.attempts) } })] := by
  unfold RetryableTransport.Submit
  cases h1 : mem.op.Client <;>
    cases h2 : (mem.clients (mem.op.Client.getD DefaultClient)).Transport <;>
    simp_all

/-- C9: for the transport built by `NewRetryableTransport inner N` and every operation,
`Submit` calls `inner.Submit` exactly once; at that call the operation points to the client it
pointed to before (the default client when it pointed to none), the transport of that client
is a `retryableRoundTripper` with `attempts = N` whose delegate is the transport the client
held before (the default transport when it held none), and `Submit` returns the pair that
`inner.Submit` returned. -/
theorem Submit_installs_and_delegates {α β : Type} (env : SubmitEnv α β) (inner : Nat)
    (N : Int) (op : ClientOperation α) (clients : ClientRef → Client β) :
    ∃ m : Memory α β,
      (RetryableTransport.Submit env ⟨NewRetryableTransport inner N, op, clients⟩).calls =
        [(inner, m)] ∧
      m.op.Client = some (op.Client.getD DefaultClient) ∧
      (m.clients (op.Client.getD DefaultClient)).Transport =
        some (RoundTripper.retryable
          ((clients (op.Client.getD DefaultClient)).Transport.getD
            RoundTripper.DefaultTransport) N) ∧
      (RetryableTransport.Submit env ⟨NewRetryableTransport inner N, op, clients⟩).result =
        (env.submit inner m.op m.clients).1 := by
  refine ⟨_, Submit_calls env _, rfl, ?_, ?_⟩
  · simp [NewRetryableTransport]
  · unfold RetryableTransport.Submit
    cases h1 : op.Client <;>
      cases h2 : (clients (op.Client.getD DefaultClient)).Transport <;>
      simp_all [NewRetryableTransport]

/-- C10 fails as stated: for an operation whose `Client` is nil, the operation handed on to
the inner `Submit` has its field `Client` set to the default client, so a field other than the
transport of a client has changed. -/
theorem Submit_sets_absent_client :
    opNoClient.Client = none ∧
      ∃ m : Memory String String,
        (RetryableTransport.Submit submitEnvPlain
          ⟨NewRetryableTransport 0 3, opNoClient, clientsPlain⟩).calls = [(0, m)] ∧
        m.op.Client = some DefaultClient ∧ m.op.Client ≠ opNoClient.Client := by
  refine ⟨rfl, _, Submit_calls _ _, rfl, ?_⟩
  decide

/-- C10 (as amended): for every operation, before the inner `Submit` is called, `Submit` has
changed the field `Transport` of the client the operation points to (the default client when
it points to none) and has set the field `Client` of the operation to that client, which
changes it only when it was nil; the other fields of the operation and of that client, all
other clients, and the fields `tr` and `attempts` of the `RetryableTransport` are as before. -/
theorem Submit_frame {α β : Type} (env : SubmitEnv α β) (t : RetryableTransport)
    (op : ClientOperation α) (clients : ClientRef → Client β) :
    ∃ m : Memory α β,
      (RetryableTransport.Submit env ⟨t, op, clients⟩).calls = [(t.tr, m)] ∧
      m.t = t ∧
      m.op.others = op.others ∧
      m.op.Client = some (op.Client.getD DefaultClient) ∧
      (∀ c, op.Client = some c → m.op = op) ∧
      (m.clients (op.Client.getD DefaultClient)).others =
        (clients (op.Client.getD DefaultClient)).others ∧
      ∀ c, c ≠ op.Client.getD DefaultClient → m.clients c = clients c := by
  refine ⟨_, Submit_calls env _, rfl, rfl, rfl, ?_, ?_, ?_⟩
  · intro c hc
    cases op
    simp_all
  · simp
  · intro c hc
    simp [Function.update, hc]

/-- C11: for every response whose `X-RateLimit-Reset` header is absent, empty, or does not
parse as an integer, `delayWithRateLimit` returns `false` and leaves the world as it is: no
wait is counted or recorded, so neither the clock, the timer nor the cancellation channel is
consulted, whatever the state of the channel. -/
theorem delay_unusable_header (env : Env) (r : Response) (cancel : Option Int) (w : World)
    (h : r.Header.lookup (CanonicalMIMEHeaderKey "X-RateLimit-Reset") = none ∨
      r.Header.Get "X-RateLimit-Reset" = "" ∨
      ParseInt (r.Header.Get "X-RateLimit-Reset") = none) :
    delayWithRateLimit env (some r) cancel w = (some false, w) := by
  have hparse : ParseInt (r.Header.Get "X-RateLimit-Reset") = none := by
    rcases h with h | h | h
    · have hget : r.Header.Get "X-RateLimit-Reset" = "" := by
        simp [Header.Get, h]
      rw [hget]
      rfl
    · rw [h]
      rfl
    · exact h
  rw [delayWithRateLimit_some]
  simp [cooldown, hparse]

theorem delay_unusable_header_witness :
    delayWithRateLimit envFutureReset (some (resp429 "soon")) reqCancelled.Cancel World.init =
      (some false, World.init) :=
  delay_unusable_header envFutureReset (resp429 "soon") reqCancelled.Cancel World.init
    (Or.inr (Or.inr (by decide)))

/-- C12: for every response whose `X-RateLimit-Reset` header parses, `delayWithRateLimit`
returns `true` when the timer of the computed duration is ready before the cancellation
channel (or there is no channel), returns `false` when the channel is ready first, and
returns one of the two in every case. -/
theorem delay_outcomes (env : Env) (r : Response) (cancel : Option Int) (w : World)
    (retryReset : Int)
    (hparse : ParseInt (r.Header.Get "X-RateLimit-Reset") = some retryReset) :
    ((cancel = none ∨ ∃ c, cancel = some c ∧
        env.now w.waits + max (Sub (Unix retryReset) (env.now w.waits)) 0 <
          max c (env.now w.waits)) →
      (delayWithRateLimit env (some r) cancel w).1 = some true) ∧
    (∀ c, cancel = some c →
      max c (env.now w.waits) <
        env.now w.waits + max (Sub (Unix retryReset) (env.now w.waits)) 0 →
      (delayWithRateLimit env (some r) cancel w).1 = some false) ∧
    ((delayWithRateLimit env (some r) cancel w).1 = some true ∨
      (delayWithRateLimit env (some r) cancel w).1 = some false) := by
  rw [delayWithRateLimit_some, cooldown_of_parse env cancel r _ retryReset hparse]
  refine ⟨?_, ?_, ?_⟩
  · rintro (h | ⟨c, h, hlt⟩)
    · simp [h, selectTimer]
    · simp [h, selectTimer, hlt]
  · intro c h hlt
    have hnot : ¬ env.now w.waits + max (Sub (Unix retryReset) (env.now w.waits)) 0 <
        max c (env.now w.waits) := not_lt.mpr (le_of_lt hlt)
    simp [h, selectTimer, hlt, hnot]
  · cases selectTimer (env.now w.waits) (Sub (Unix retryReset) (env.now w.waits)) cancel
      (env.tie w.waits) <;> simp

theorem delay_outcomes_witness :
    ((reqCancelled.Cancel = none ∨ ∃ c, reqCancelled.Cancel = some c ∧
        envFutureReset.now World.init.waits +
            max (Sub (Unix 300) (envFutureReset.now World.init.waits)) 0 <
          max c (envFutureReset.now World.init.waits)) →
      (delayWithRateLimit envFutureReset (some (resp429 "300")) reqCancelled.Cancel
        World.init).1 = some true) ∧
    (∀ c, reqCancelled.Cancel = some c →
      max c (envFutureReset.now World.init.waits) <
        envFutureReset.now World.init.waits +
          max (Sub (Unix 300) (envFutureReset.now World.init.waits)) 0 →
      (delayWithRateLimit envFutureReset (some (resp429 "300")) reqCancelled.Cancel
        World.init).1 = some false) ∧
    ((delayWithRateLimit envFutureReset (some (resp429 "300")) reqCancelled.Cancel
        World.init).1 = some true ∨
      (delayWithRateLimit envFutureReset (some (resp429 "300")) reqCancelled.Cancel
        World.init).1 = some false) :=
  delay_outcomes envFutureReset (resp429 "300") reqCancelled.Cancel World.init 300
    (by decide)

theorem Sub_nonpos (t u : Int) (h : t ≤ u) : Sub t u ≤ 0 := by
  unfold Sub maxDuration minDuration
  split_ifs <;> omega

theorem selectTimer_pastDue (now d : Int) (cancel : Option Int) (tie : Bool) (hd : d ≤ 0)
    (hpending : ∀ c, cancel = some c → now < c) : selectTimer now d cancel tie = true := by
  unfold selectTimer
  cases cancel with
  | none => rfl
  | some c =>
    have hc := hpending c rfl
    have h1 : max d 0 = 0 := max_eq_right hd
    have h2 : max c now = c := max_eq_left (le_of_lt hc)
    simp [h1, h2, hc]

theorem retryLoop_zero (env : Env) (tr : RoundTripFn) (req : Request) (resp : Option Response)
    (err : Option Error) (w : World) :
    retryLoop env tr req 0 resp err w = (Outcome.ret resp err, w) := rfl

theorem Ending.prepares_of_lt {env : Env} {req : Request} {n : Nat} {resp : Option Response}
    {err : Option Error} {p s q m : Nat} {out : Outcome} {w' : World}
    (h : Ending env req n resp err p s q m out w') (hm : m < n) :
    w'.prepares = p + m + 1 := by
  unfold Ending World.counts at h
  rcases h with ⟨h0, _⟩ | ⟨_, _, h, _⟩ |
    ⟨_, _, ⟨_, _, _, _, _, h, _⟩ | ⟨_, _, h, _⟩ |
      ⟨_, _, _, ⟨_, _, h, _⟩ | ⟨_, _, _, h, _⟩ | ⟨_, _, _, h, _⟩⟩⟩ <;> omega

theorem Ending.counts_of_eq {env : Env} {req : Request} {n : Nat} {resp : Option Response}
    {err : Option Error} {p s q m : Nat} {out : Outcome} {w' : World}
    (h : Ending env req n resp err p s q m out w') (hm : m = n) :
    w'.counts (p + n) (s + n) (q + n) := by
  unfold Ending at h
  rcases h with ⟨_, _, h⟩ | ⟨h0, _⟩ | ⟨h0, _⟩
  · rw [← hm]
    exact h
  · omega
  · omega

theorem Ending.waits_le {env : Env} {req : Request} {n : Nat} {resp : Option Response}
    {err : Option Error} {p s q m : Nat} {out : Outcome} {w' : World}
    (h : Ending env req n resp err p s q m out w') : w'.waits ≤ q + m + 1 := by
  unfold Ending World.counts at h
  rcases h with ⟨_, _, _, _, h⟩ | ⟨_, _, _, _, h⟩ |
    ⟨_, _, ⟨_, _, _, _, _, _, _, h⟩ | ⟨_, _, _, _, h⟩ |
      ⟨_, _, _, ⟨_, _, _, _, h⟩ | ⟨_, _, _, _, _, h⟩ | ⟨_, _, _, _, _, h⟩⟩⟩ <;> omega

theorem Ending.sends_ge {env : Env} {req : Request} {n : Nat} {resp : Option Response}
    {err : Option Error} {p s q m : Nat} {out : Outcome} {w' : World}
    (h : Ending env req n resp err p s q m out w') : s + m ≤ w'.sends := by
  unfold Ending World.counts at h
  rcases h with ⟨_, _, _, h, _⟩ | ⟨_, _, _, h, _⟩ |
    ⟨_, _, ⟨_, _, _, _, _, _, h, _⟩ | ⟨_, _, _, h, _⟩ |
      ⟨_, _, _, ⟨_, _, _, h, _⟩ | ⟨_, _, _, _, h, _⟩ | ⟨_, _, _, _, h, _⟩⟩⟩ <;> omega

theorem wrapInt_succ_le (N : Nat) : (wrapInt ((N : Int) + 1)).toNat ≤ N + 1 := by
  simp only [wrapInt, intSize]
  norm_num
  omega

/-- The largest reset time that parses is kept by `time.Unix` as an instant far in the past:
the duration is the smallest one, the timer is ready at once, and with a cancellation channel
that fires one second after the clock reading `delayWithRateLimit` returns `true`. -/
theorem delay_wrapped_reset :
    Sub (Unix 9223372036854775807) (200 * Second) = minDuration ∧
      (delayWithRateLimit envRateLimited (some (resp429 "9223372036854775807"))
        (some (201 * Second)) World.init).1 = some true := by
  refine ⟨by decide, by decide⟩

/-- C13: for every reset time that parses and lies at or before the clock reading of the
wait, the duration given to the timer is zero or negative, so the timer is ready at once;
with no cancellation pending `delayWithRateLimit` counts the wait and returns `true`, and a
`RoundTrip` whose attempt `k` received that 429 response goes on to prepare attempt `k + 1`
when `k` is below the budget. -/
theorem pastDue_wait_proceeds (env : Env) (req : Request) (r : Response) (retryReset : Int)
    (j : Nat)
    (hparse : ParseInt (r.Header.Get "X-RateLimit-Reset") = some retryReset)
    (hpast : Unix retryReset ≤ env.now j)
    (hpending : ∀ c, req.Cancel = some c → env.now j < c) :
    Sub (Unix retryReset) (env.now j) ≤ 0 ∧
    env.now j + max (Sub (Unix retryReset) (env.now j)) 0 = env.now j ∧
    (∀ w0 : World, w0.waits = j →
      (delayWithRateLimit env (some r) req.Cancel w0).1 = some true ∧
      (delayWithRateLimit env (some r) req.Cancel w0).2.waits = j + 1) ∧
    (∀ (w : World) (N k : Nat), (N : Int) ≤ maxInt → k < N → j = w.waits + k →
      env.transport (w.sends + k) = (some r, none) →
      r.StatusCode = StatusTooManyRequests →
      w.sends + k <
        (retryableRoundTripper.RoundTrip env (baseRoundTrip env) N req w).2.sends →
      w.prepares + (k + 1) <
        (retryableRoundTripper.RoundTrip env (baseRoundTrip env) N req w).2.prepares) := by
  have hd := Sub_nonpos (Unix retryReset) (env.now j) hpast
  have hsel := selectTimer_pastDue (env.now j) (Sub (Unix retryReset) (env.now j)) req.Cancel
    (env.tie j) hd hpending
  have hcool : cooldown env req.Cancel r j = some true := by
    rw [cooldown_of_parse env _ r _ retryReset hparse, hsel]
  refine ⟨hd, by rw [max_eq_right hd, add_zero], ?_, ?_⟩
  · intro w0 hw0
    rw [delayWithRateLimit_some, hw0, hcool]
    exact ⟨rfl, rfl⟩
  · intro w N k hN hk hj hresp hstatus hcall
    simp only [retryableRoundTripper.RoundTrip] at hcall ⊢
    have hN2 : (N : Int) < maxInt := by
      rcases lt_or_eq_of_le hN with h | h
      · exact h
      · exfalso
        rw [h, wrapInt_maxInt_succ, retryLoop_zero] at hcall
        simp at hcall
    rw [wrapInt_succ N hN2] at hcall ⊢
    obtain ⟨m, hm, hgo, hend⟩ := retryLoop_shape env req (N + 1) none none w
    generalize retryLoop env (baseRoundTrip env) req (N + 1) none none w = res
      at hcall hend ⊢
    have hle := hend.sends_le
    have hkm : k < m := by
      rcases Nat.lt_or_ge k m with hlt | hge
      · exact hlt
      · exfalso
        have hkm : k = m := by omega
        subst hkm
        rw [hj] at hcool
        unfold Ending World.counts at hend
        rcases hend with ⟨_, _, _, h, _⟩ | ⟨_, _, _, h, _⟩ | ⟨_, _, hsend⟩
        · omega
        · omega
        · rcases hsend with ⟨r2, e2, ht2, _⟩ | ⟨ht2, _⟩ | ⟨r2, ht2, _, hrest⟩
          · rw [hresp] at ht2
            cases ht2
          · rw [hresp] at ht2
            cases ht2
          · rw [hresp] at ht2
            cases ht2
            rcases hrest with ⟨hs2, _⟩ | ⟨_, hc2, _⟩ | ⟨_, hc2, _⟩
            · exact absurd hstatus hs2
            · rw [hcool] at hc2
              cases hc2
            · rw [hcool] at hc2
              cases hc2
    rcases Nat.lt_or_ge m (N + 1) with hlt | hge
    · have := hend.prepares_of_lt hlt
      omega
    · have := (hend.counts_of_eq (by omega)).1
      omega

theorem pastDue_wait_proceeds_witness :
    Sub (Unix 100) (envRateLimited.now 0) ≤ 0 ∧
    (delayWithRateLimit envRateLimited (some (resp429 "100")) reqPlain.Cancel World.init).1 =
      some true ∧
    World.init.prepares + (0 + 1) <
      (retryableRoundTripper.RoundTrip envRateLimited (baseRoundTrip envRateLimited) (2 : Nat)
        reqPlain World.init).2.prepares :=
  have h := pastDue_wait_proceeds envRateLimited reqPlain (resp429 "100") 100 0 (by decide)
    (by decide) (fun c hc => by cases hc)
  ⟨h.1, (h.2.2.1 World.init rfl).1,
    h.2.2.2 World.init 2 0 (by decide) (by decide) rfl rfl rfl (by decide)⟩

/-- C14: for every attempt budget `N ≥ 0` and every behaviour of preparation, delegate and
wait, a call of `RoundTrip` ends (with an outcome and a world) after at most `N + 1` delegate
calls, at most `N + 1` preparations and at most `N + 1` waits; with budget 0 and a first
preparation that succeeds, exactly one delegate call is made, whatever it answers. -/
theorem bounded_attempts (env : Env) (req : Request) (w : World) (N : Nat) :
    (∃ out w', retryableRoundTripper.RoundTrip env (baseRoundTrip env) N req w = (out, w') ∧
      w'.sends ≤ w.sends + (N + 1) ∧ w'.prepares ≤ w.prepares + (N + 1) ∧
      w'.waits ≤ w.waits + (N + 1)) ∧
    (env.prepare w.prepares = none →
      (retryableRoundTripper.RoundTrip env (baseRoundTrip env) 0 req w).2.sends =
        w.sends + 1) := by
  constructor
  · refine ⟨(retryableRoundTripper.RoundTrip env (baseRoundTrip env) N req w).1,
      (retryableRoundTripper.RoundTrip env (baseRoundTrip env) N req w).2, Prod.mk.eta.symm, ?_⟩
    simp only [retryableRoundTripper.RoundTrip]
    have hn := wrapInt_succ_le N
    obtain ⟨m, hm, _, hend⟩ :=
      retryLoop_shape env req (wrapInt ((N : Int) + 1)).toNat none none w
    generalize retryLoop env (baseRoundTrip env) req (wrapInt ((N : Int) + 1)).toNat none none
      w = res at hend ⊢
    generalize (wrapInt ((N : Int) + 1)).toNat = n at hn hm hend
    rcases Nat.lt_or_ge m n with hlt | hge
    · have h1 := hend.sends_le
      have h2 := hend.prepares_le
      have h3 := hend.waits_le
      omega
    · obtain ⟨h1, h2, h3⟩ := hend.counts_of_eq (by omega)
      omega
  · intro hprep
    simp only [retryableRoundTripper.RoundTrip]
    have h1 : (wrapInt (0 + 1)).toNat = 1 := by decide
    rw [h1]
    obtain ⟨m, hm, _, hend⟩ := retryLoop_shape env req 1 none none w
    generalize retryLoop env (baseRoundTrip env) req 1 none none w = res at hend ⊢
    have hle := hend.sends_le
    have hge := hend.sends_ge
    rcases Nat.eq_zero_or_pos m with h0 | hpos
    · subst h0
      unfold Ending World.counts at hend
      simp only [Nat.add_zero] at hend
      rcases hend with ⟨h, _⟩ | ⟨_, ⟨e, hp, _⟩, _⟩ |
        ⟨_, _, ⟨_, _, _, _, _, _, h, _⟩ | ⟨_, _, _, h, _⟩ |
          ⟨_, _, _, ⟨_, _, _, h, _⟩ | ⟨_, _, _, _, h, _⟩ | ⟨_, _, _, _, h, _⟩⟩⟩
      · omega
      · rw [hprep] at hp
        cases hp
      all_goals exact h
    · have hm1 : m = 1 := by omega
      exact (hend.counts_of_eq hm1).2.1

/-- C19: when the configured budget is negative, or is the largest Go `int` so that the
increment wraps around, the loop bound is not positive: `RoundTrip` returns a nil response
and a nil error and leaves the world as it is, with no preparation and no delegate call,
whatever the delegate is. -/
theorem nonpositive_bound_returns_nil (env : Env) (tr : RoundTripFn) (N : Int)
    (req : Request) (w : World) (h : (minInt ≤ N ∧ N < 0) ∨ N = maxInt) :
    retryableRoundTripper.RoundTrip env tr N req w = (Outcome.ret none none, w) := by
  have hz : (wrapInt (N + 1)).toNat = 0 := by
    rcases h with ⟨h1, h2⟩ | h
    · simp only [wrapInt, intSize, minInt] at *
      norm_num at *
      omega
    · rw [h]
      exact wrapInt_maxInt_succ
  unfold retryableRoundTripper.RoundTrip
  rw [hz]
  rfl

theorem nonpositive_bound_returns_nil_witness :
    retryableRoundTripper.RoundTrip envRateLimited (baseRoundTrip envRateLimited) (-1)
      reqPlain World.init = (Outcome.ret none none, World.init) :=
  nonpositive_bound_returns_nil envRateLimited (baseRoundTrip envRateLimited) (-1) reqPlain
    World.init (Or.inl (by decide))

/-- C20: when the delegate returns a non-nil response whenever it returns a nil error,
`RoundTrip` does not panic: the read of the status code and the read of the header in
`delayWithRateLimit`, which panic on a nil response, are only reached with a response that is
not nil, for every budget and every sequence of delegate outcomes. -/
theorem no_nil_dereference (env : Env) (req : Request) (w : World) (N : Int)
    (h : ∀ k, (env.transport k).2 = none → (env.transport k).1 ≠ none) :
    (retryableRoundTripper.RoundTrip env (baseRoundTrip env) N req w).1 ≠ Outcome.panic := by
  simp only [retryableRoundTripper.RoundTrip]
  obtain ⟨m, _, _, hend⟩ :=
    retryLoop_shape env req (wrapInt (N + 1)).toNat none none w
  generalize retryLoop env (baseRoundTrip env) req (wrapInt (N + 1)).toNat none none w = res
    at hend ⊢
  unfold Ending at hend
  rcases hend with ⟨_, hout, _⟩ | ⟨_, ⟨_, _, hout, _⟩, _⟩ |
    ⟨_, _, ⟨_, _, _, hout, _⟩ | ⟨ht, _⟩ | ⟨_, _, hout, _⟩⟩
  · rw [hout]
    exact fun hc => Outcome.noConfusion hc
  · rw [hout]
    exact fun hc => Outcome.noConfusion hc
  · rw [hout]
    exact fun hc => Outcome.noConfusion hc
  · exfalso
    have h1 := h _ (by rw [ht])
    rw [ht] at h1
    exact h1 rfl
  · rw [hout]
    exact fun hc => Outcome.noConfusion hc

theorem no_nil_dereference_witness :
    (retryableRoundTripper.RoundTrip envThenErr (baseRoundTrip envThenErr) 3 reqPlain
      World.init).1 ≠ Outcome.panic :=
  no_nil_dereference envThenErr reqPlain World.init 3 (fun k => by
    unfold envThenErr
    by_cases hk : k = 0 <;> simp [hk])

theorem Follows.send_right {x : Event} {a : Option Response} {b : Option Error}
    (h : Follows x (Event.send a b)) : x = Event.prepare none := by
  cases x with
  | prepare e =>
    cases e with
    | none => rfl
    | some e => exact absurd h (by simp [Follows])
  | send ro eo => exact absurd h (by simp [Follows])
  | wait d b2 => exact absurd h (by simp [Follows])

theorem Follows.prepare_right {x : Event} {e : Option Error}
    (h : Follows x (Event.prepare e)) : ∃ d, x = Event.wait d true := by
  cases x with
  | prepare e2 => exact absurd h (by simp [Follows])
  | send ro eo => exact absurd h (by simp [Follows])
  | wait d b2 =>
    cases b2 with
    | true => exact ⟨d, rfl⟩
    | false => exact absurd h (by simp [Follows])

theorem Follows.wait_right {x : Event} {d : Int} {b : Bool}
    (h : Follows x (Event.wait d b)) :
    ∃ r, x = Event.send (some r) none ∧ r.StatusCode = StatusTooManyRequests := by
  cases x with
  | prepare e2 => exact absurd h (by simp [Follows])
  | wait d2 b2 => exact absurd h (by simp [Follows])
  | send ro eo =>
    cases ro with
    | none => exact absurd h (by simp [Follows])
    | some r =>
      cases eo with
      | some e => exact absurd h (by simp [Follows])
      | none => exact ⟨r, rfl, by simpa [Follows] using h⟩

theorem retryLoop_trace (env : Env) (req : Request) :
    ∀ (n : Nat) (resp : Option Response) (err : Option Error) (w : World),
      ∃ evs, (retryLoop env (baseRoundTrip env) req n resp err w).2.trace = w.trace ++ evs ∧
        List.Chain' Follows evs ∧ StartsWithPrepare evs := by
  intro n
  induction n with
  | zero =>
    intro resp err w
    exact ⟨[], by simp [retryLoop], List.chain'_nil, by simp [StartsWithPrepare]⟩
  | succ n ih =>
    intro resp err w
    cases hp : env.prepare w.prepares with
    | some e =>
      refine ⟨[Event.prepare (some e)], ?_, List.chain'_singleton _, ?_⟩
      · simp [retryLoop, Prepare, hp]
      · simp [StartsWithPrepare]
    | none =>
      rcases ht : env.transport w.sends with ⟨ro, eo⟩
      cases eo with
      | some e =>
        refine ⟨[Event.prepare none, Event.send ro (some e)], ?_, ?_, ?_⟩
        · simp [retryLoop, Prepare, baseRoundTrip, hp, ht]
        · simp [Follows]
        · simp [StartsWithPrepare]
      | none =>
        cases ro with
        | none =>
          refine ⟨[Event.prepare none, Event.send none none], ?_, ?_, ?_⟩
          · simp [retryLoop, Prepare, baseRoundTrip, hp, ht]
          · simp [Follows]
          · simp [StartsWithPrepare]
        | some r =>
          by_cases hs : r.StatusCode = StatusTooManyRequests
          · cases hc : cooldown env req.Cancel r w.waits with
            | none =>
              refine ⟨[Event.prepare none, Event.send (some r) none], ?_, ?_, ?_⟩
              · simp [retryLoop, Prepare, baseRoundTrip, hp, ht, hs, delayWithRateLimit_some,
                  hc]
              · simp [Follows]
              · simp [StartsWithPrepare]
            | some b =>
              cases b with
              | false =>
                refine ⟨[Event.prepare none, Event.send (some r) none,
                  Event.wait (Sub (Unix ((ParseInt (r.Header.Get "X-RateLimit-Reset")).getD 0))
                    (env.now w.waits)) false], ?_, ?_, ?_⟩
                · simp [retryLoop, Prepare, baseRoundTrip, hp, ht, hs,
                    delayWithRateLimit_some, hc]
                · simp [Follows, hs]
                · simp [StartsWithPrepare]
              | true =>
                obtain ⟨w3, hw3, hstep⟩ : ∃ w3 : World,
                    w3.trace = w.trace ++ [Event.prepare none, Event.send (some r) none,
                      Event.wait
                        (Sub (Unix ((ParseInt (r.Header.Get "X-RateLimit-Reset")).getD 0))
                          (env.now w.waits)) true] ∧
                    retryLoop env (baseRoundTrip env) req (n + 1) resp err w =
                      retryLoop env (baseRoundTrip env) req n (some r) none w3 := by
                  refine ⟨(delayWithRateLimit env (some r) req.Cancel
                    (baseRoundTrip env req (Prepare env w).2).2).2, ?_, ?_⟩
                  · simp [Prepare, baseRoundTrip, delayWithRateLimit_some, hc, hp, ht]
                  · simp [retryLoop, Prepare, baseRoundTrip, hp, ht, hs,
                      delayWithRateLimit_some, hc]
                obtain ⟨evs, htr, hchain, hstart⟩ := ih (some r) none w3
                refine ⟨Event.prepare none :: Event.send (some r) none ::
                  Event.wait (Sub (Unix ((ParseInt (r.Header.Get "X-RateLimit-Reset")).getD 0))
                    (env.now w.waits)) true :: evs, ?_, ?_, ?_⟩
                · rw [hstep, htr, hw3]
                  simp
                · refine List.chain'_cons.mpr ⟨by simp [Follows], ?_⟩
                  refine List.chain'_cons.mpr ⟨by simp [Follows, hs], ?_⟩
                  refine List.chain'_cons'.mpr ⟨?_, hchain⟩
                  intro y hy
                  obtain ⟨e, he⟩ := hstart y hy
                  rw [he]
                  simp [Follows]
                · simp [StartsWithPrepare]
          · refine ⟨[Event.prepare none, Event.send (some r) none], ?_, ?_, ?_⟩
            · simp [retryLoop, Prepare, baseRoundTrip, hp, ht, hs]
            · simp [Follows]
            · simp [StartsWithPrepare]

theorem send_after_prepare {evs : List Event} (hchain : List.Chain' Follows evs)
    (hstart : StartsWithPrepare evs) (pre post : List Event) (a : Option Response)
    (b : Option Error) (h : evs = pre ++ Event.send a b :: post) :
    ∃ pre', pre = pre' ++ [Event.prepare none] := by
  subst h
  rcases List.eq_nil_or_concat pre with hnil | ⟨pre', x, hcat⟩
  · subst hnil
    obtain ⟨e, he⟩ := hstart (Event.send a b) (by simp)
    cases he
  · rw [List.concat_eq_append] at hcat
    subst hcat
    rw [List.append_assoc] at hchain
    have h2 := List.chain'_cons.mp hchain.right_of_append
    rw [h2.1.send_right]
    exact ⟨pre', rfl⟩

theorem prepare_after_wait {evs : List Event} (hchain : List.Chain' Follows evs)
    (hstart : StartsWithPrepare evs) (pre post : List Event) (e : Option Error)
    (h : evs = pre ++ Event.prepare e :: post) :
    pre = [] ∨ ∃ pre' r dur, pre = pre' ++ [Event.send (some r) none, Event.wait dur true] ∧
      r.StatusCode = StatusTooManyRequests := by
  subst h
  rcases List.eq_nil_or_concat pre with hnil | ⟨pre1, x, hcat⟩
  · exact Or.inl hnil
  · right
    rw [List.concat_eq_append] at hcat
    subst hcat
    rw [List.append_assoc] at hchain
    have h2 := List.chain'_cons.mp hchain.right_of_append
    obtain ⟨dur, hx⟩ := h2.1.prepare_right
    subst hx
    rcases List.eq_nil_or_concat pre1 with hnil | ⟨pre2, y, hcat⟩
    · subst hnil
      obtain ⟨e2, he2⟩ := hstart (Event.wait dur true) (by simp)
      cases he2
    · rw [List.concat_eq_append] at hcat
      subst hcat
      rw [List.append_assoc] at hchain
      have h3 := List.chain'_cons.mp hchain.right_of_append
      obtain ⟨r, hy, hr⟩ := h3.1.wait_right
      subst hy
      exact ⟨pre2, r, dur, by simp, hr⟩

theorem between_sends {evs : List Event} (hchain : List.Chain' Follows evs)
    (pre mid post : List Event) (a c : Option Response) (b d : Option Error)
    (h : evs = pre ++ Event.send a b :: (mid ++ Event.send c d :: post))
    (hmid : ∀ x y, Event.send x y ∉ mid) :
    ∃ r dur, a = some r ∧ b = none ∧ r.StatusCode = StatusTooManyRequests ∧
      mid = [Event.wait dur true, Event.prepare none] := by
  subst h
  have h1 := hchain.right_of_append
  cases mid with
  | nil =>
    have h2 := (List.chain'_cons.mp h1).1
    exact absurd h2 (by simp [Follows])
  | cons x mid1 =>
    have h2 := List.chain'_cons.mp h1
    cases x with
    | prepare e => exact absurd h2.1 (by cases a <;> cases b <;> simp [Follows])
    | send x y => exact absurd (List.mem_cons_self _ _) (hmid x y)
    | wait dur bb =>
      obtain ⟨r, hr, hs⟩ := h2.1.wait_right
      cases hr
      cases mid1 with
      | nil =>
        have h3 := (List.chain'_cons.mp h2.2).1
        exact absurd h3 (by cases bb <;> simp [Follows])
      | cons y mid2 =>
        have h3 := List.chain'_cons.mp h2.2
        cases y with
        | send x y =>
          exact absurd (List.mem_cons_of_mem _ (List.mem_cons_self _ _)) (hmid x y)
        | wait d2 b2 => exact absurd h3.1 (by cases bb <;> simp [Follows])
        | prepare e =>
          obtain ⟨d3, hd3⟩ := h3.1.prepare_right
          cases hd3
          cases mid2 with
          | nil =>
            have h4 := (List.chain'_cons.mp h3.2).1
            cases h4.send_right
            exact ⟨r, dur, rfl, rfl, hs, rfl⟩
          | cons z mid3 =>
            have h4 := (List.chain'_cons.mp h3.2).1
            cases z with
            | send x y =>
              exact absurd (List.mem_cons_of_mem _ (List.mem_cons_of_mem _
                (List.mem_cons_self _ _))) (hmid x y)
            | prepare e2 => exact absurd h4 (by cases e <;> simp [Follows])
            | wait d4 b4 => exact absurd h4 (by cases e <;> simp [Follows])

/-- C15: the events that a call of `RoundTrip` adds to the trace are in strict sequence.
Every delegate call comes directly after a preparation that succeeded; between two delegate
calls with no delegate call in between there is exactly a wait that ended by its timer and
then a preparation that succeeded, and the earlier of the two calls answered status 429
without error; every preparation but the first comes directly after such an answer and its
wait that ended by its timer, so that attempt `k + 1` is not started otherwise. -/
theorem attempts_sequential (env : Env) (req : Request) (w : World) (N : Int) :
    ∃ evs,
      (retryableRoundTripper.RoundTrip env (baseRoundTrip env) N req w).2.trace =
        w.trace ++ evs ∧
      (∀ pre post a b, evs = pre ++ Event.send a b :: post →
        ∃ pre', pre = pre' ++ [Event.prepare none]) ∧
      (∀ pre mid post a b c d,
        evs = pre ++ Event.send a b :: (mid ++ Event.send c d :: post) →
        (∀ x y, Event.send x y ∉ mid) →
        ∃ r dur, a = some r ∧ b = none ∧ r.StatusCode = StatusTooManyRequests ∧
          mid = [Event.wait dur true, Event.prepare none]) ∧
      (∀ pre post e, evs = pre ++ Event.prepare e :: post →
        pre = [] ∨ ∃ pre' r dur,
          pre = pre' ++ [Event.send (some r) none, Event.wait dur true] ∧
          r.StatusCode = StatusTooManyRequests) := by
  obtain ⟨evs, htr, hchain, hstart⟩ :=
    retryLoop_trace env req (wrapInt (N + 1)).toNat none none w
  exact ⟨evs, htr, send_after_prepare hchain hstart,
    fun pre mid post a b c d => between_sends hchain pre mid post a c b d,
    prepare_after_wait hchain hstart⟩

theorem retryLoop_goesOn_step (env : Env) (req : Request) (w : World)
    (h : GoesOn env req w.prepares w.sends w.waits) :
    ∃ (r : Response) (d : Int) (w3 : World),
      env.transport w.sends = (some r, none) ∧
      w3.counts (w.prepares + 1) (w.sends + 1) (w.waits + 1) ∧
      w3.trace = w.trace ++
        [Event.prepare none, Event.send (some r) none, Event.wait d true] ∧
      ∀ (n : Nat) (resp : Option Response) (err : Option Error),
        retryLoop env (baseRoundTrip env) req (n + 1) resp err w =
          retryLoop env (baseRoundTrip env) req n (some r) none w3 := by
  obtain ⟨hp, r, ht, hs, hc⟩ := h
  refine ⟨r, Sub (Unix ((ParseInt (r.Header.Get "X-RateLimit-Reset")).getD 0))
    (env.now w.waits), (delayWithRateLimit env (some r) req.Cancel
      (baseRoundTrip env req (Prepare env w).2).2).2, ht, ?_, ?_, ?_⟩
  · simp [Prepare, baseRoundTrip, delayWithRateLimit_some, hc, World.counts]
  · simp [Prepare, baseRoundTrip, delayWithRateLimit_some, hc, hp, ht]
  · intro n resp err
    simp [retryLoop, Prepare, baseRoundTrip, hp, ht, hs, delayWithRateLimit_some, hc]

theorem retryLoop_last_wait (env : Env) (req : Request) :
    ∀ (n : Nat) (resp : Option Response) (err : Option Error) (w : World),
      (∀ i, i < n + 1 → GoesOn env req (w.prepares + i) (w.sends + i) (w.waits + i)) →
      ∃ d, (retryLoop env (baseRoundTrip env) req (n + 1) resp err w).2.trace.getLast? =
        some (Event.wait d true) := by
  intro n
  induction n with
  | zero =>
    intro resp err w hgo
    obtain ⟨r, d, w3, _, _, htr, hstep⟩ := retryLoop_goesOn_step env req w (hgo 0 (by omega))
    refine ⟨d, ?_⟩
    rw [hstep, retryLoop_zero, htr]
    simp
  | succ n ih =>
    intro resp err w hgo
    obtain ⟨r, d, w3, _, ⟨h1, h2, h3⟩, _, hstep⟩ :=
      retryLoop_goesOn_step env req w (hgo 0 (by omega))
    rw [hstep]
    apply ih
    intro i hi
    have hi2 := hgo (i + 1) (by omega)
    have e1 : w.prepares + 1 + i = w.prepares + (i + 1) := by omega
    have e2 : w.sends + 1 + i = w.sends + (i + 1) := by omega
    have e3 : w.waits + 1 + i = w.waits + (i + 1) := by omega
    rw [h1, h2, h3, e1, e2, e3]
    exact hi2

theorem first_attempt_sent (env : Env) (req : Request) (w : World) (n : Nat)
    (hprep : env.prepare w.prepares = none) :
    w.prepares < (retryLoop env (baseRoundTrip env) req (n + 1) none none w).2.prepares ∧
      w.sends < (retryLoop env (baseRoundTrip env) req (n + 1) none none w).2.sends := by
  obtain ⟨m, hm, _, hend⟩ := retryLoop_shape env req (n + 1) none none w
  generalize retryLoop env (baseRoundTrip env) req (n + 1) none none w = res at hend ⊢
  rcases Nat.lt_or_ge m (n + 1) with hlt | hge
  · have hp := hend.prepares_of_lt hlt
    have hs := hend.sends_ge
    refine ⟨by omega, ?_⟩
    rcases Nat.eq_zero_or_pos m with h0 | hpos
    · subst h0
      unfold Ending World.counts at hend
      simp only [Nat.add_zero] at hend
      rcases hend with ⟨h, _⟩ | ⟨_, ⟨e, hp2, _⟩, _⟩ |
        ⟨_, _, ⟨_, _, _, _, _, _, h, _⟩ | ⟨_, _, _, h, _⟩ |
          ⟨_, _, _, ⟨_, _, _, h, _⟩ | ⟨_, _, _, _, h, _⟩ | ⟨_, _, _, _, h, _⟩⟩⟩
      · omega
      · rw [hprep] at hp2
        cases hp2
      all_goals omega
    · omega
  · obtain ⟨h1, h2, _⟩ := hend.counts_of_eq (by omega)
    omega

/-- C16 fails as stated: with budget 2 and a first preparation that fails, the first attempt
is not sent, in the run without cancellation as in the run whose cancellation channel has
fired before the call: no delegate call is made in either. -/
theorem first_attempt_not_sent :
    (0 : Int) ≤ 2 ∧
      (retryableRoundTripper.RoundTrip envNeverPrepared (baseRoundTrip envNeverPrepared) 2
        reqPlain World.init).2.sends = World.init.sends ∧
      (retryableRoundTripper.RoundTrip envNeverPrepared (baseRoundTrip envNeverPrepared) 2
        reqFired World.init).2.sends = World.init.sends := by
  refine ⟨by decide, by decide, by decide⟩

/-- C16 (as amended): for every budget `N` with `0 ≤ N < maxInt` and two runs of `RoundTrip`
that differ only in the cancellation channel of the request (one that has fired before the
call included), when the first preparation succeeds the first attempt is prepared and sent in
both runs, and if its delegate call ends in a transport error or in a status other than 429
without error, both runs return the same pair and leave the same world, after exactly one
delegate call. -/
theorem cancellation_only_in_wait (env : Env) (req1 req2 : Request) (w : World) (N : Nat)
    (hN : (N : Int) < maxInt) (hprep : env.prepare w.prepares = none) :
    (w.prepares <
        (retryableRoundTripper.RoundTrip env (baseRoundTrip env) N req1 w).2.prepares ∧
      w.sends < (retryableRoundTripper.RoundTrip env (baseRoundTrip env) N req1 w).2.sends ∧
      w.prepares <
        (retryableRoundTripper.RoundTrip env (baseRoundTrip env) N req2 w).2.prepares ∧
      w.sends < (retryableRoundTripper.RoundTrip env (baseRoundTrip env) N req2 w).2.sends) ∧
    (((∃ e, (env.transport w.sends).2 = some e) ∨
        ∃ r, env.transport w.sends = (some r, none) ∧
          r.StatusCode ≠ StatusTooManyRequests) →
      retryableRoundTripper.RoundTrip env (baseRoundTrip env) N req1 w =
        retryableRoundTripper.RoundTrip env (baseRoundTrip env) N req2 w ∧
      (retryableRoundTripper.RoundTrip env (baseRoundTrip env) N req1 w).2.sends =
        w.sends + 1 ∧
      (retryableRoundTripper.RoundTrip env (baseRoundTrip env) N req2 w).2.sends =
        w.sends + 1) := by
  simp only [retryableRoundTripper.RoundTrip]
  rw [wrapInt_succ N hN]
  have h1 := first_attempt_sent env req1 w N hprep
  have h2 := first_attempt_sent env req2 w N hprep
  refine ⟨⟨h1.1, h1.2, h2.1, h2.2⟩, ?_⟩
  rintro (⟨e, he⟩ | ⟨r, ht, hs⟩)
  · rcases ht : env.transport w.sends with ⟨ro, eo⟩
    rw [ht] at he
    simp only at he
    subst he
    simp [retryLoop, Prepare, baseRoundTrip, hprep, ht]
  · simp [retryLoop, Prepare, baseRoundTrip, hprep, ht, hs]

theorem cancellation_only_in_wait_witness :
    (World.init.sends <
        (retryableRoundTripper.RoundTrip envAlwaysOK (baseRoundTrip envAlwaysOK) (3 : Nat)
          reqPlain World.init).2.sends ∧
      World.init.sends <
        (retryableRoundTripper.RoundTrip envAlwaysOK (baseRoundTrip envAlwaysOK) (3 : Nat)
          reqFired World.init).2.sends) ∧
    retryableRoundTripper.RoundTrip envAlwaysOK (baseRoundTrip envAlwaysOK) (3 : Nat)
        reqPlain World.init =
      retryableRoundTripper.RoundTrip envAlwaysOK (baseRoundTrip envAlwaysOK) (3 : Nat)
        reqFired World.init ∧
    (retryableRoundTripper.RoundTrip envAlwaysOK (baseRoundTrip envAlwaysOK) (3 : Nat)
      reqFired World.init).2.sends = World.init.sends + 1 :=
  have h := cancellation_only_in_wait envAlwaysOK reqPlain reqFired World.init 3 (by decide)
    rfl
  have h2 := h.2 (Or.inr ⟨respOK, rfl, by decide⟩)
  ⟨⟨h.1.2.1, h.1.2.2.2⟩, h2.1, h2.2.2⟩

/-- Where the increment of the budget does not wrap around (`0 ≤ N < maxInt`), on a run that
is rate-limited throughout with reset headers that parse and waits that end by their timer,
`RoundTrip` makes `N + 1` waits for `N + 1` delegate calls, not `N`: the last event of the
call is a wait that ended by its timer, made after the last attempt although no attempt
follows. -/
theorem rateLimited_waits (env : Env) (req : Request) (w : World) (N : Nat)
    (hN : (N : Int) < maxInt) (h : RateLimitedPastDue env req w) :
    (retryableRoundTripper.RoundTrip env (baseRoundTrip env) N req w).2.waits =
        w.waits + (N + 1) ∧
      (retryableRoundTripper.RoundTrip env (baseRoundTrip env) N req w).2.sends =
        w.sends + (N + 1) ∧
      ∃ d, (retryableRoundTripper.RoundTrip env (baseRoundTrip env) N req w).2.trace.getLast? =
        some (Event.wait d true) := by
  unfold retryableRoundTripper.RoundTrip
  rw [wrapInt_succ N hN]
  obtain ⟨_, h2, h3⟩ := (rateLimited_loop env req w h (N + 1) none none).2
  exact ⟨h3, h2, retryLoop_last_wait env req N none none w (fun i _ => h.goesOn i)⟩

theorem rateLimited_waits_witness :
    (retryableRoundTripper.RoundTrip envRateLimited (baseRoundTrip envRateLimited) (2 : Nat)
        reqPlain World.init).2.waits = World.init.waits + (2 + 1) ∧
      (retryableRoundTripper.RoundTrip envRateLimited (baseRoundTrip envRateLimited) (2 : Nat)
        reqPlain World.init).2.sends = World.init.sends + (2 + 1) ∧
      ∃ d, (retryableRoundTripper.RoundTrip envRateLimited (baseRoundTrip envRateLimited)
        (2 : Nat) reqPlain World.init).2.trace.getLast? = some (Event.wait d true) :=
  rateLimited_waits envRateLimited reqPlain World.init 2 (by decide) envRateLimited_pastDue

/-- C17, the code at the failing input: with the largest budget a Go `int` holds, on a run
that is rate-limited throughout with past-due reset times, the increment `attempts++` wraps
around and no wait is made at all, where the claim asks for `maxInt + 1` waits. -/
theorem rateLimited_waits_maxInt :
    0 ≤ maxInt ∧ RateLimitedPastDue envRateLimited reqPlain World.init ∧
      (retryableRoundTripper.RoundTrip envRateLimited (baseRoundTrip envRateLimited) maxInt
        reqPlain World.init).2.waits = 0 ∧
      (((retryableRoundTripper.RoundTrip envRateLimited (baseRoundTrip envRateLimited) maxInt
        reqPlain World.init).2.waits : Nat) : Int) ≠ maxInt + 1 := by
  refine ⟨by decide, envRateLimited_pastDue, by decide, by decide⟩

theorem nest_retryable (T : RoundTripper) (N : Int) (k : Nat) :
    nest (RoundTripper.retryable T N) N k = nest T N (k + 1) := by
  induction k with
  | zero => rfl
  | succ k ih =>
    show RoundTripper.retryable (nest (RoundTripper.retryable T N) N k) N = _
    rw [ih]
    rfl

theorem Submit_clients {α β : Type} (senv : SubmitEnv α β) (t : RetryableTransport)
    (op : ClientOperation α) (clients : ClientRef → Client β)
    (hframe : ∀ h o cl, (senv.submit h o cl).2.2 = cl) :
    (RetryableTransport.Submit senv ⟨t, op, clients⟩).memory.clients =
      Function.update clients (op.Client.getD DefaultClient)
        { clients (op.Client.getD DefaultClient) with
          Transport := some (RoundTripper.retryable
            ((clients (op.Client.getD DefaultClient)).Transport.getD
              RoundTripper.DefaultTransport) t.attempts) } := by
  unfold RetryableTransport.Submit
  simp only [hframe]
  cases h1 : op.Client <;>
    cases h2 : (clients (op.Client.getD DefaultClient)).Transport <;>
    simp_all

theorem submitEach_transport {α β : Type} (senv : SubmitEnv α β) (t : RetryableTransport)
    (c : ClientRef) (hframe : ∀ h o cl, (senv.submit h o cl).2.2 = cl) :
    ∀ (rest : List (ClientOperation α)) (op : ClientOperation α)
      (clients : ClientRef → Client β),
      (∀ o ∈ op :: rest, o.Client.getD DefaultClient = c) →
      (submitEach senv t (op :: rest) clients c).Transport =
        some (nest ((clients c).Transport.getD RoundTripper.DefaultTransport) t.attempts
          (rest.length + 1)) := by
  intro rest
  induction rest with
  | nil =>
    intro op clients hops
    have hc := hops op (List.mem_cons_self _ _)
    show ((RetryableTransport.Submit senv ⟨t, op, clients⟩).memory.clients c).Transport = _
    rw [Submit_clients senv t op clients hframe, hc]
    simp [nest]
  | cons op2 rest ih =>
    intro op clients hops
    have hc := hops op (List.mem_cons_self _ _)
    show (submitEach senv t (op2 :: rest)
      (RetryableTransport.Submit senv ⟨t, op, clients⟩).memory.clients c).Transport = _
    rw [ih op2 _ (fun o ho => hops o (List.mem_cons_of_mem _ ho)),
      Submit_clients senv t op clients hframe, hc]
    simp [nest_retryable]

theorem AlwaysRateLimited.base {env : Env} {req : Request} (h : AlwaysRateLimited env req) :
    AnswersRateLimited env req (baseRoundTrip env) 1 := by
  intro w
  obtain ⟨r, retryReset, ht, hs, hparse, hj⟩ := h.2 w.sends
  refine ⟨r, (baseRoundTrip env req w).2, ?_, hs, ?_, rfl⟩
  · simp [baseRoundTrip, ht]
  · intro j
    rw [cooldown_of_parse env _ r _ retryReset hparse, (hj j).2]

theorem retryLoop_step_of_answer {env : Env} {req : Request} {f : RoundTripFn} {w w2 : World}
    {r : Response} (hp : env.prepare w.prepares = none)
    (hfw : f req (Prepare env w).2 = (Outcome.ret (some r) none, w2))
    (hs : r.StatusCode = StatusTooManyRequests)
    (hc : cooldown env req.Cancel r w2.waits = some true) (n : Nat)
    (resp : Option Response) (err : Option Error) :
    retryLoop env f req (n + 1) resp err w =
      retryLoop env f req n (some r) none (delayWithRateLimit env (some r) req.Cancel w2).2 := by
  have hP : Prepare env w = (none, (Prepare env w).2) := by
    simp [Prepare, hp]
  rw [retryLoop, hP]
  simp only
  rw [hfw]
  simp [hs, delayWithRateLimit_some, hc]

theorem retryLoop_answers {env : Env} {req : Request} {f : RoundTripFn} {c : Nat}
    (hprep : ∀ i, env.prepare i = none) (hf : AnswersRateLimited env req f c) :
    ∀ (n : Nat) (resp : Option Response) (err : Option Error) (w : World),
      ∃ r w', retryLoop env f req (n + 1) resp err w = (Outcome.ret (some r) none, w') ∧
        r.StatusCode = StatusTooManyRequests ∧
        (∀ j, cooldown env req.Cancel r j = some true) ∧
        w'.sends = w.sends + c * (n + 1) := by
  intro n
  induction n with
  | zero =>
    intro resp err w
    obtain ⟨r, w2, hfw, hs, hc, hsends⟩ := hf (Prepare env w).2
    refine ⟨r, (delayWithRateLimit env (some r) req.Cancel w2).2, ?_, hs, hc, ?_⟩
    · rw [retryLoop_step_of_answer (hprep _) hfw hs (hc _), retryLoop_zero]
    · simp [delayWithRateLimit_some, hc, hsends, Prepare]
  | succ n ih =>
    intro resp err w
    obtain ⟨r, w2, hfw, hs, hc, hsends⟩ := hf (Prepare env w).2
    obtain ⟨r2, w4, hloop, hs2, hc2, hsends2⟩ :=
      ih (some r) none (delayWithRateLimit env (some r) req.Cancel w2).2
    refine ⟨r2, w4, ?_, hs2, hc2, ?_⟩
    · rw [retryLoop_step_of_answer (hprep _) hfw hs (hc _), hloop]
    · rw [hsends2]
      simp [delayWithRateLimit_some, hc, hsends, Prepare]
      ring

theorem AnswersRateLimited.retryable {env : Env} {req : Request} {f : RoundTripFn} {c : Nat}
    (hprep : ∀ i, env.prepare i = none) (hf : AnswersRateLimited env req f c) (N : Nat)
    (hN : (N : Int) < maxInt) :
    AnswersRateLimited env req (retryableRoundTripper.RoundTrip env f N) (c * (N + 1)) := by
  intro w
  unfold retryableRoundTripper.RoundTrip
  rw [wrapInt_succ N hN]
  exact retryLoop_answers hprep hf N none none w

theorem nest_answers {env : Env} {req : Request} (h : AlwaysRateLimited env req)
    (T : RoundTripper) (hT : T = RoundTripper.DefaultTransport ∨ ∃ id, T = RoundTripper.other id)
    (N : Nat) (hN : (N : Int) < maxInt) :
    ∀ k, AnswersRateLimited env req (RoundTripper.RoundTrip env (nest T N k)) ((N + 1) ^ k) := by
  intro k
  induction k with
  | zero =>
    have hb : RoundTripper.RoundTrip env (nest T N 0) = baseRoundTrip env := by
      rcases hT with h0 | ⟨id, h0⟩ <;> subst h0 <;> rfl
    rw [hb, pow_zero]
    exact h.base
  | succ k ih =>
    have hb : RoundTripper.RoundTrip env (nest T N (k + 1)) =
        retryableRoundTripper.RoundTrip env (RoundTripper.RoundTrip env (nest T N k)) N := rfl
    rw [hb, pow_succ]
    exact ih.retryable h.1 N hN

theorem envRateLimited_always : AlwaysRateLimited envRateLimited reqPlain := by
  refine ⟨fun _ => rfl, fun _ => ⟨resp429 "100", 100, rfl, rfl, by decide, fun _ => ⟨?_, rfl⟩⟩⟩
  show Unix 100 ≤ 200 * Second
  decide

/-- Wrappers accumulate across submissions where the increment of the budget does not wrap
around.  For every budget `N` with `0 ≤ N < maxInt` and every non-empty list of `k` operations that point to the same client (or
to none, for the default client), when the inner `Submit` leaves the clients as they are,
after the `k` calls of `Submit` the transport of that client is its initial transport `T`
(the default transport when it was nil) inside `k` nested `retryableRoundTripper`s; and when
`T` does not retry and always answers 429 with a reset time that parses and is past due, one
`RoundTrip` through the nest calls `T` exactly `(N + 1) ^ k` times. -/
theorem wrappers_accumulate {α β : Type} (senv : SubmitEnv α β) (inner : Nat) (N : Nat)
    (op : ClientOperation α) (rest : List (ClientOperation α))
    (clients : ClientRef → Client β) (c : ClientRef) (T : RoundTripper) (env : Env)
    (req : Request) (w : World)
    (hN : (N : Int) < maxInt)
    (hframe : ∀ h o cl, (senv.submit h o cl).2.2 = cl)
    (hops : ∀ o ∈ op :: rest, o.Client.getD DefaultClient = c)
    (hT : (clients c).Transport.getD RoundTripper.DefaultTransport = T)
    (hbase : T = RoundTripper.DefaultTransport ∨ ∃ id, T = RoundTripper.other id)
    (hrl : AlwaysRateLimited env req) :
    (submitEach senv (NewRetryableTransport inner N) (op :: rest) clients c).Transport =
        some (nest T N (op :: rest).length) ∧
      (RoundTripper.RoundTrip env (nest T N (op :: rest).length) req w).2.sends =
        w.sends + (N + 1) ^ (op :: rest).length := by
  constructor
  · rw [submitEach_transport senv _ c hframe rest op clients hops, hT]
    rfl
  · obtain ⟨r, w', hrun, _, _, hsends⟩ := nest_answers hrl T hbase N hN (op :: rest).length w
    rw [hrun]
    exact hsends

theorem wrappers_accumulate_witness :
    (submitEach submitEnvPlain (NewRetryableTransport 0 (1 : Nat)) [opNoClient, opNoClient]
        clientsPlain DefaultClient).Transport =
        some (nest RoundTripper.DefaultTransport (1 : Nat) [opNoClient, opNoClient].length) ∧
      (RoundTripper.RoundTrip envRateLimited
        (nest RoundTripper.DefaultTransport (1 : Nat) [opNoClient, opNoClient].length) reqPlain
        World.init).2.sends = World.init.sends + (1 + 1) ^ [opNoClient, opNoClient].length :=
  wrappers_accumulate submitEnvPlain 0 1 opNoClient [opNoClient] clientsPlain DefaultClient
    RoundTripper.DefaultTransport envRateLimited reqPlain World.init (by decide)
    (fun _ _ _ => rfl) (fun o ho => by simp at ho; subst ho; rfl) rfl (Or.inl rfl)
    envRateLimited_always

/-- C18, the code at the failing input: with one submission (`k = 1`) and the largest budget
a Go `int` holds, the transport of the default client is the default transport inside one
`retryableRoundTripper`, as the claim says, but the increment `attempts++` wraps around and a
`RoundTrip` through it against a transport that always answers a past-due 429 does not call
that transport at all, where the claim asks for `(maxInt + 1) ^ 1` calls. -/
theorem wrappers_accumulate_maxInt :
    0 ≤ maxInt ∧ AlwaysRateLimited envRateLimited reqPlain ∧
      (submitEach submitEnvPlain (NewRetryableTransport 0 maxInt) [opNoClient] clientsPlain
        DefaultClient).Transport = some (nest RoundTripper.DefaultTransport maxInt 1) ∧
      (RoundTripper.RoundTrip envRateLimited (nest RoundTripper.DefaultTransport maxInt 1)
        reqPlain World.init).2.sends = World.init.sends ∧
      ((World.init.sends : Nat) : Int) ≠ (maxInt + 1) ^ 1 := by
  refine ⟨by decide, envRateLimited_always, rfl, by decide, by decide⟩

end RetryHttp
